import Mathlib

/-!
# SingleInstanceGuard

A shallow embedding of `singleinstanceguard.cpp` / `singleinstanceguard.h`:
the shared structure that lives in the named memory segment, the
length-prefixed encoding of file paths in its fixed buffer, and the guard
operations `tryRun`, `showInstance`, `openExternalFiles`, `fetchFilesToOpen`
and `fetchAskedToShow`.

Conventions of the embedding.
* A C++ `int` is an `Int`; a `ushort` is a `Fin 65536`; the cast `(ushort)n`
  is reduction modulo `65536`.
* An operation returns an `Option`: `none` stands for a run that does not
  return normally (a failed `Q_ASSERT`, or an access outside `m_filesBuf`).
* `lock()` / `unlock()` bracket every access to the shared structure, so each
  critical section is one atomic function on the `SharedStruct`.
-/

namespace SingleInstanceGuard

/-! ## Data model -/

/-- A 16-bit code unit, the C++ type of the entries of the files buffer. -/
abbrev ushort := Fin 65536

/-- One UTF-16 code unit of a string. -/
abbrev QChar := ushort

/-- A string is its sequence of code units; `size()` is the length of the list. -/
abbrev QString := List QChar

/-- An ordered list of strings. -/
abbrev QStringList := List QString

/-- The count of the entries in the buffer holding the paths of the files to open. -/
def FilesBufCount : Int := 1024

/-- The magic number identifying an initialised shared structure. -/
def c_magic : Int := 19910925

/-- The structure stored in the shared memory segment.  The buffer is an array
of `FilesBufCount` entries; it is represented by its entry function and every
access goes through the bounds-checked `readBuf` / `writeBuf`. -/
structure SharedStruct where
  m_magic : Int
  m_filesBufIdx : Int
  m_filesBuf : Nat → ushort
  m_askedToShow : Bool

/-- The cast `(ushort)n` of a non-negative size. -/
def toUshort (n : Nat) : ushort := ⟨n % 65536, Nat.mod_lt n (by decide)⟩

/-- The read `p_str->m_filesBuf[i]`; `none` outside the array. -/
def readBuf (p_str : SharedStruct) (i : Int) : Option ushort :=
  if 0 ≤ i ∧ i < FilesBufCount then some (p_str.m_filesBuf i.toNat) else none

/-- The write `p_str->m_filesBuf[i] = v`; `none` outside the array. -/
def writeBuf (p_str : SharedStruct) (i : Int) (v : ushort) : Option SharedStruct :=
  if 0 ≤ i ∧ i < FilesBufCount then
    some { p_str with m_filesBuf := Function.update p_str.m_filesBuf i.toNat v }
  else none

/-! ## Encoder: `appendFileToBuffer` -/

/-- The loop `for (i = 0; i < strSize; ++i) m_filesBuf[m_filesBufIdx++] = data[i].unicode()`,
by recursion on the code units still to be written. -/
def writeChars : SharedStruct → List QChar → Option SharedStruct
  | p_str, [] => some p_str
  | p_str, c :: cs =>
    match writeBuf p_str p_str.m_filesBufIdx c with
    | none => none
    | some s1 => writeChars { s1 with m_filesBufIdx := s1.m_filesBufIdx + 1 } cs

/-- Append `p_file` to the files buffer of the shared structure.  The Boolean is
the C++ return value. -/
def appendFileToBuffer (p_str : SharedStruct) (p_file : QString) :
    Option (Bool × SharedStruct) :=
  if p_file.isEmpty then some (true, p_str)
  else
    let strSize : Nat := p_file.length
    if (strSize : Int) + 1 > FilesBufCount - p_str.m_filesBufIdx then some (false, p_str)
    else
      match writeBuf p_str p_str.m_filesBufIdx (toUshort strSize) with
      | none => none
      | some s1 =>
        match writeChars { s1 with m_filesBufIdx := s1.m_filesBufIdx + 1 } p_file with
        | none => none
        | some s2 => some (true, s2)

/-! ## Decoder: the loops of `fetchFilesToOpen` -/

/-- The loop `for (i = 0; i < strSize; ++i) file.append(QChar(m_filesBuf[idx++]))`:
reads `n` code units starting at `idx`, returning the extended string and the
advanced index. -/
def readChars (p_str : SharedStruct) : Nat → Int → QString → Option (QString × Int)
  | 0, idx, file => some (file, idx)
  | n + 1, idx, file =>
    match readBuf p_str idx with
    | none => none
    | some c => readChars p_str n (idx + 1) (file ++ [c])

/-- The loop `while (idx < str->m_filesBufIdx)` of `fetchFilesToOpen`.  Each
iteration advances `idx` by at least one, so `fuel` bounds the number of
iterations; running out of fuel with the loop condition still true is `none`. -/
def fetchLoop (p_str : SharedStruct) : Nat → Int → QStringList → Option QStringList
  | 0, idx, files => if idx < p_str.m_filesBufIdx then none else some files
  | fuel + 1, idx, files =>
    if idx < p_str.m_filesBufIdx then
      match readBuf p_str idx with
      | none => none
      | some v =>
        let strSize : Nat := v.val
        let idx1 := idx + 1
        if (strSize : Int) ≤ p_str.m_filesBufIdx - idx1 then
          match readChars p_str strSize idx1 [] with
          | none => none
          | some (file, idx2) => fetchLoop p_str fuel idx2 (files ++ [file])
        else none
    else some files

/-! ## The shared memory segment -/

/-- The named segment as seen by every process of the host: `none` while no
segment is bound to the name, `some s` while one is, with contents `s`. -/
abbrev Segment := Option SharedStruct

/-- The per-process handle `m_sharedMemory`; only whether it is attached matters. -/
structure QSharedMemory where
  isAttached : Bool
deriving DecidableEq

/-- Modelled from the spec: `QSharedMemory::attach` is library code outside the
repository.  It binds to an existing region and fails if none exists. -/
def QSharedMemory.attach (m : QSharedMemory) (seg : Segment) : Bool × QSharedMemory :=
  if seg.isSome then (true, { isAttached := true }) else (false, m)

/-- Modelled from the spec: `QSharedMemory::create` is library code outside the
repository.  It allocates a new named region and fails if a region of that name
already exists.  The contents of a new region are not specified: they are the
parameter `junk`. -/
def QSharedMemory.create (junk : SharedStruct) (m : QSharedMemory) (seg : Segment) :
    Bool × QSharedMemory × Segment :=
  match seg with
  | some s => (false, m, some s)
  | none => (true, { isAttached := true }, some junk)

/-- Modelled from the spec: `QSharedMemory::data` is library code outside the
repository.  An attached handle points at the contents of the bound region;
there is nothing to point at otherwise. -/
def QSharedMemory.data (m : QSharedMemory) (seg : Segment) : Option SharedStruct :=
  if m.isAttached then seg else none

/-! ## The guard -/

/-- The per-process state of `SingleInstanceGuardPrivate`.  The key `m_memKey`
is the same for every guard considered here and is left out. -/
structure SingleInstanceGuardPrivate where
  m_online : Bool
  m_sharedMemory : QSharedMemory
deriving DecidableEq

/-- The state of a guard right after its constructor. -/
def SingleInstanceGuardPrivate.new : SingleInstanceGuardPrivate :=
  { m_online := false, m_sharedMemory := { isAttached := false } }

/-! ### `tryRun` -/

/-- The writes of `tryRun` between `lock()` and `unlock()`. -/
def tryRunInit (str : SharedStruct) : SharedStruct :=
  { str with m_magic := c_magic, m_filesBufIdx := 0, m_askedToShow := false }

/-- The body of `tryRun`.  `race` is what the other processes do to the segment
between this process's `attach()` and its `create()`; `junk` is the contents of
a newly created region.  The Boolean is the C++ return value. -/
def tryRunWith (race : Segment → Segment) (junk : SharedStruct)
    (g : SingleInstanceGuardPrivate) (seg : Segment) :
    Bool × SingleInstanceGuardPrivate × Segment :=
  let g0 : SingleInstanceGuardPrivate := { g with m_online := false }
  match g0.m_sharedMemory.attach seg with
  | (true, m) => (false, { g0 with m_sharedMemory := m }, seg)
  | (false, m) =>
    match m.create junk (race seg) with
    | (true, m1, seg1) =>
      (true, { m_online := true, m_sharedMemory := m1 }, seg1.map tryRunInit)
    | (false, m1, seg1) => (false, { g0 with m_sharedMemory := m1 }, seg1)

/-- The method `tryRun` when no other process acts between its steps. -/
def tryRun (junk : SharedStruct) (g : SingleInstanceGuardPrivate) (seg : Segment) :
    Bool × SingleInstanceGuardPrivate × Segment :=
  tryRunWith id junk g seg

/-! ### `showInstance` -/

/-- The opening of `showInstance` and `openExternalFiles`:
`if (!isAttached()) { if (!attach()) return; }`.  The Boolean tells whether the
method goes on. -/
def ensureAttached (g : SingleInstanceGuardPrivate) (seg : Segment) :
    Bool × SingleInstanceGuardPrivate :=
  if g.m_sharedMemory.isAttached then (true, g)
  else
    match g.m_sharedMemory.attach seg with
    | (ok, m) => (ok, { g with m_sharedMemory := m })

/-- The method `showInstance`. -/
def showInstance (g : SingleInstanceGuardPrivate) (seg : Segment) :
    Option (SingleInstanceGuardPrivate × Segment) :=
  match ensureAttached g seg with
  | (false, g1) => some (g1, seg)
  | (true, g1) =>
    match g1.m_sharedMemory.data seg with
    | none => none
    | some str =>
      if str.m_magic = c_magic then some (g1, some { str with m_askedToShow := true })
      else none

/-- The method `showInstance` called `n` times in a row by the same guard. -/
def showInstanceTimes : Nat → SingleInstanceGuardPrivate → Segment →
    Option (SingleInstanceGuardPrivate × Segment)
  | 0, g, seg => some (g, seg)
  | n + 1, g, seg =>
    match showInstance g seg with
    | none => none
    | some (g1, seg1) => showInstanceTimes n g1 seg1

/-! ### `fetchFilesToOpen` and `fetchAskedToShow` -/

/-- The critical section of `fetchFilesToOpen`: the two assertions, the decoding
loop and the reset of the cursor. -/
def fetchFilesSection (str : SharedStruct) : Option (QStringList × SharedStruct) :=
  if str.m_magic = c_magic then
    if str.m_filesBufIdx ≤ FilesBufCount then
      match fetchLoop str str.m_filesBufIdx.toNat 0 [] with
      | none => none
      | some files => some (files, { str with m_filesBufIdx := 0 })
    else none
  else none

/-- The method `fetchFilesToOpen`. -/
def fetchFilesToOpen (g : SingleInstanceGuardPrivate) (seg : Segment) :
    Option (QStringList × SingleInstanceGuardPrivate × Segment) :=
  if !g.m_online then some ([], g, seg)
  else
    match g.m_sharedMemory.data seg with
    | none => none
    | some str =>
      match fetchFilesSection str with
      | none => none
      | some (files, str1) => some (files, g, some str1)

/-- The method `fetchAskedToShow`. -/
def fetchAskedToShow (g : SingleInstanceGuardPrivate) (seg : Segment) :
    Option (Bool × SingleInstanceGuardPrivate × Segment) :=
  if !g.m_online then some (false, g, seg)
  else
    match g.m_sharedMemory.data seg with
    | none => none
    | some str =>
      if str.m_magic = c_magic then
        some (str.m_askedToShow, g, some { str with m_askedToShow := false })
      else none

/-! ### `exit` -/

/-- Modelled from the spec: `QSharedMemory::detach` is library code outside the
repository.  It releases the binding of this process and does not destroy the
region while other processes remain attached; whether the region outlives the
last binding depends on the platform.  `destroyed` tells whether this call
destroyed the region. -/
def QSharedMemory.detach (destroyed : Bool) (_m : QSharedMemory) (seg : Segment) :
    QSharedMemory × Segment :=
  ({ isAttached := false }, if destroyed then none else seg)

/-- The method `exit`. -/
def exit (destroyed : Bool) (g : SingleInstanceGuardPrivate) (seg : Segment) :
    Option (SingleInstanceGuardPrivate × Segment) :=
  if !g.m_online then some (g, seg)
  else if g.m_sharedMemory.isAttached then
    match g.m_sharedMemory.detach destroyed seg with
    | (m, seg1) => some ({ m_online := false, m_sharedMemory := m }, seg1)
  else none

/-! ### `openExternalFiles` -/

/-- The loop `for (; idx < p_files.size(); ++idx)` of one round, by recursion on
the files from `idx` on.  Returns the value of `idx` when the loop ends. -/
def appendRound : SharedStruct → List QString → Nat → Option (Nat × SharedStruct)
  | str, [], idx => some (idx, str)
  | str, f :: rest, idx =>
    if (f.length : Int) + 1 > FilesBufCount then appendRound str rest (idx + 1)
    else
      match appendFileToBuffer str f with
      | none => none
      | some (true, str1) => appendRound str1 rest (idx + 1)
      | some (false, str1) => some (idx, str1)

/-- One round of `openExternalFiles`, from `lock()` to `unlock()`. -/
def openRound (p_files : QStringList) (idx : Nat) (str : SharedStruct) :
    Option (Nat × SharedStruct) :=
  if str.m_magic = c_magic then appendRound str (p_files.drop idx) idx else none

/-- What the other processes do to the shared structure while
`openExternalFiles` waits between two rounds, threaded through a state `ε`. -/
abbrev Wait (ε : Type) := ε → SharedStruct → Option (ε × SharedStruct)

/-- The bookkeeping of the retry loop: the index `idx`, the number of rounds
performed so far, and the state of the waiting environment. -/
structure Progress (ε : Type) where
  idx : Nat
  rounds : Nat
  env : ε

/-- The loop `while (tryCount--)` of `openExternalFiles`, by recursion on
`tryCount`. -/
def openLoop {ε : Type} (wait : Wait ε) (p_files : QStringList) :
    Nat → Progress ε → SharedStruct → Option (Progress ε × SharedStruct)
  | 0, p, str => some (p, str)
  | tryCount + 1, p, str =>
    match openRound p_files p.idx str with
    | none => none
    | some (idx1, str1) =>
      if idx1 < p_files.length then
        match wait p.env str1 with
        | none => none
        | some (e1, str2) =>
          openLoop wait p_files tryCount { idx := idx1, rounds := p.rounds + 1, env := e1 } str2
      else some ({ idx := idx1, rounds := p.rounds + 1, env := p.env }, str1)

/-- The method `openExternalFiles`, with the waiting environment explicit. -/
def openExternalFilesWith {ε : Type} (wait : Wait ε) (e : ε)
    (g : SingleInstanceGuardPrivate) (p_files : QStringList) (seg : Segment) :
    Option (Progress ε × SingleInstanceGuardPrivate × Segment) :=
  if p_files.isEmpty then some ({ idx := 0, rounds := 0, env := e }, g, seg)
  else
    match ensureAttached g seg with
    | (false, g1) => some ({ idx := 0, rounds := 0, env := e }, g1, seg)
    | (true, g1) =>
      match g1.m_sharedMemory.data seg with
      | none => none
      | some str =>
        match openLoop wait p_files 100 { idx := 0, rounds := 0, env := e } str with
        | none => none
        | some (p, str1) => some (p, g1, some str1)

/-- The environment in which no other process touches the shared structure. -/
def quiescent : Wait Unit := fun e str => some (e, str)

/-- The method `openExternalFiles` while no other process touches the
shared structure. -/
def openExternalFiles (g : SingleInstanceGuardPrivate) (p_files : QStringList)
    (seg : Segment) : Option (SingleInstanceGuardPrivate × Segment) :=
  match openExternalFilesWith quiescent () g p_files seg with
  | none => none
  | some (_, g1, seg1) => some (g1, seg1)

/-- The record of a path in the buffer: its size, then its code units. -/
def encodeRecord (p : QString) : List ushort := toUshort p.length :: p

/-- The encoded size of a list of paths: code-unit count plus one, summed. -/
def encodedSize (l : QStringList) : Nat := (l.map fun p => p.length + 1).sum

/-- The entries `m_filesBuf[i .. i + n)`. -/
def cells (str : SharedStruct) (i n : Nat) : List ushort :=
  (List.range' i n).map str.m_filesBuf

/-- The written part of the buffer, `m_filesBuf[0 .. m_filesBufIdx)`. -/
def pending (str : SharedStruct) : List ushort := cells str 0 str.m_filesBufIdx.toNat

/-- A path that `openExternalFiles` writes as a record: not empty, and not longer
than `FilesBufCount - 1` code units. -/
def deliverable (p : QString) : Bool := !p.isEmpty && decide ((p.length : Int) + 1 ≤ FilesBufCount)

/-- The guard is an online primary of the segment: it is online, its handle is
attached, and the segment is bound and carries the magic number. -/
def OnlinePrimary (g : SingleInstanceGuardPrivate) (seg : Segment) : Prop :=
  g.m_online = true ∧ g.m_sharedMemory.isAttached = true ∧
    ∃ str, seg = some str ∧ str.m_magic = c_magic

/-- The records of a list of paths, back to back. -/
def encodeAll : QStringList → List ushort
  | [] => []
  | p :: ps => encodeRecord p ++ encodeAll ps

/-- The written part of the buffer is the back-to-back records of `recs`, each
of `1` to `FilesBufCount - 1` code units, and ends at the cursor, which lies
inside the buffer. -/
def PendingRecords (str : SharedStruct) (recs : QStringList) : Prop :=
  0 ≤ str.m_filesBufIdx ∧ str.m_filesBufIdx ≤ FilesBufCount ∧
    pending str = encodeAll recs ∧ ∀ r ∈ recs, 1 ≤ r.length ∧ r.length ≤ 1023

/-- A well-formed shared structure: initialised, and its written part is a
sequence of records. -/
def WellFormed (str : SharedStruct) : Prop :=
  str.m_magic = c_magic ∧ ∃ recs, PendingRecords str recs

/-- The structure `s1` is `str` with the records of `written` appended at the
cursor `c` of `str`: the cursor has advanced past them, the entries from `c` on
hold them, and every other entry and field is as in `str`. -/
def Appended (str s1 : SharedStruct) (c : Nat) (written : QStringList) : Prop :=
  s1.m_filesBufIdx = ((c + encodedSize written : Nat) : Int) ∧
    s1.m_magic = str.m_magic ∧ s1.m_askedToShow = str.m_askedToShow ∧
    (∀ j, j < c ∨ c + encodedSize written ≤ j → s1.m_filesBuf j = str.m_filesBuf j) ∧
    cells s1 c (encodedSize written) = encodeAll written

/-- The call `openExternalFiles(files)` by the guard `secondary` followed
immediately by `fetchFilesToOpen()` by the guard `primary`; the fetched list. -/
def handoffThenFetch (secondary primary : SingleInstanceGuardPrivate) (files : QStringList)
    (seg : Segment) : Option QStringList :=
  match openExternalFiles secondary files seg with
  | none => none
  | some (_, seg1) =>
    match fetchFilesToOpen primary seg1 with
    | none => none
    | some (fetched, _, _) => some fetched

/-- Where a process stands inside `tryRun`. -/
inductive TryRunPc where
  /-- Before `m_online = false; attach()`. -/
  | atAttach
  /-- After a failed `attach()`, before `create()`. -/
  | atCreate
  /-- After a successful `create()`, before the locked initialisation. -/
  | atInit
  /-- After `unlock()`, before `m_online = true; return true`. -/
  | atOnline
  /-- After `tryRun` has returned `ret`. -/
  | returned (ret : Bool)
deriving DecidableEq

/-- A process: its guard and its position inside `tryRun`. -/
structure Proc where
  pc : TryRunPc
  guard : SingleInstanceGuardPrivate

/-- Two processes and the segment bound to the name they share. -/
structure Host where
  seg : Segment
  p1 : Proc
  p2 : Proc

/-- One atomic step of `tryRun` by a process. -/
def Proc.step (junk : SharedStruct) (p : Proc) (seg : Segment) : Proc × Segment :=
  match p.pc with
  | .atAttach =>
    let g0 : SingleInstanceGuardPrivate := { p.guard with m_online := false }
    match g0.m_sharedMemory.attach seg with
    | (true, m) => ({ pc := .returned false, guard := { g0 with m_sharedMemory := m } }, seg)
    | (false, m) => ({ pc := .atCreate, guard := { g0 with m_sharedMemory := m } }, seg)
  | .atCreate =>
    match p.guard.m_sharedMemory.create junk seg with
    | (true, m1, seg1) => ({ pc := .atInit, guard := { p.guard with m_sharedMemory := m1 } }, seg1)
    | (false, m1, seg1) =>
      ({ pc := .returned false, guard := { p.guard with m_sharedMemory := m1 } }, seg1)
  | .atInit => ({ p with pc := .atOnline }, seg.map tryRunInit)
  | .atOnline => ({ pc := .returned true, guard := { p.guard with m_online := true } }, seg)
  | .returned _ => (p, seg)

/-- One step of the host: the second process steps when `who` is true, the
first one otherwise. -/
def Host.step (junk : SharedStruct) (h : Host) (who : Bool) : Host :=
  if who then
    match h.p2.step junk h.seg with
    | (p, seg) => { h with seg := seg, p2 := p }
  else
    match h.p1.step junk h.seg with
    | (p, seg) => { h with seg := seg, p1 := p }

/-- The host after a schedule of steps. -/
def Host.run (junk : SharedStruct) (h : Host) (schedule : List Bool) : Host :=
  schedule.foldl (Host.step junk) h

/-- Two new guards about to call `tryRun`, and no segment. -/
def Host.init : Host :=
  { seg := none,
    p1 := { pc := .atAttach, guard := SingleInstanceGuardPrivate.new },
    p2 := { pc := .atAttach, guard := SingleInstanceGuardPrivate.new } }

/-- The process has created the segment. -/
def Proc.creator (p : Proc) : Bool :=
  match p.pc with
  | .atInit => true
  | .atOnline => true
  | .returned true => true
  | _ => false

/-- How far a process is inside `tryRun`. -/
def TryRunPc.rank : TryRunPc → Nat
  | .atAttach => 0
  | .atCreate => 1
  | .atInit => 2
  | .atOnline => 3
  | .returned _ => 4

/-- The process has returned true from `tryRun`. -/
def TryRunPc.isPrimary : TryRunPc → Bool
  | .returned true => true
  | _ => false

/-- The invariant of the race: the segment is bound exactly when one process has
created it, at most one process has, a guard is online exactly when its
`tryRun` has returned true, and a process that returned false left the segment
bound. -/
def Host.Inv (h : Host) : Prop :=
  h.seg.isSome = (h.p1.creator || h.p2.creator) ∧
    (h.p1.creator && h.p2.creator) = false ∧
    h.p1.guard.m_online = h.p1.pc.isPrimary ∧
    h.p2.guard.m_online = h.p2.pc.isPrimary ∧
    (h.p1.pc = .returned false → h.seg.isSome = true) ∧
    (h.p2.pc = .returned false → h.seg.isSome = true)

/-! ## Sequences of calls after a successful `tryRun` -/

/-- A call of one of the operations of a guard. -/
inductive GuardCall where
  | showInstance
  | openExternalFiles (files : QStringList)
  | fetchFilesToOpen
  | fetchAskedToShow
  | exit

/-- The guards of two processes and the segment they share. -/
structure Instances where
  primary : SingleInstanceGuardPrivate
  other : SingleInstanceGuardPrivate
  seg : Segment

/-- One call by the guard `g` while the guard `o` belongs to the other process.
The region is never destroyed while the other process is attached; `persist`
tells whether the platform keeps a region that nobody is attached to. -/
def Instances.callBy (persist : Bool) (c : GuardCall) (g o : SingleInstanceGuardPrivate)
    (seg : Segment) : Option (SingleInstanceGuardPrivate × Segment) :=
  match c with
  | .showInstance => showInstance g seg
  | .openExternalFiles files => openExternalFiles g files seg
  | .fetchFilesToOpen =>
    match fetchFilesToOpen g seg with
    | none => none
    | some (_, g1, seg1) => some (g1, seg1)
  | .fetchAskedToShow =>
    match fetchAskedToShow g seg with
    | none => none
    | some (_, g1, seg1) => some (g1, seg1)
  | .exit => exit (!o.m_sharedMemory.isAttached && !persist) g seg

/-- One call, by the other guard when `byOther` is true and by the primary
otherwise; `none` when the call does not return. -/
def Instances.call (persist : Bool) (s : Instances) (byOther : Bool) (c : GuardCall) :
    Option Instances :=
  if byOther then
    match Instances.callBy persist c s.other s.primary s.seg with
    | none => none
    | some (g1, seg1) => some { s with other := g1, seg := seg1 }
  else
    match Instances.callBy persist c s.primary s.other s.seg with
    | none => none
    | some (g1, seg1) => some { s with primary := g1, seg := seg1 }

/-- A sequence of calls, one after the other. -/
def Instances.run (persist : Bool) : Instances → List (Bool × GuardCall) → Option Instances
  | s, [] => some s
  | s, (byOther, c) :: rest =>
    match s.call persist byOther c with
    | none => none
    | some s1 => Instances.run persist s1 rest

/-- A guard fits the segment: it is attached when it is online, and the segment
is bound when it is attached. -/
def GuardFits (g : SingleInstanceGuardPrivate) (seg : Segment) : Prop :=
  (g.m_online = true → g.m_sharedMemory.isAttached = true) ∧
    (g.m_sharedMemory.isAttached = true → seg.isSome = true)

/-- The invariant of the sequences of calls: both guards fit the segment, and
the structure of a bound segment is well-formed. -/
def Instances.Inv (s : Instances) : Prop :=
  GuardFits s.primary s.seg ∧ GuardFits s.other s.seg ∧
    ∀ str, s.seg = some str → WellFormed str

/-! ## The decoding loop with its bookkeeping made visible -/

/-- The loop of `readChars`, recording in `reads` the indices it reads. -/
def readCharsTrace (p_str : SharedStruct) :
    Nat → Int → QString → List Int → Option (QString × Int × List Int)
  | 0, idx, file, reads => some (file, idx, reads)
  | n + 1, idx, file, reads =>
    match readBuf p_str idx with
    | none => none
    | some c => readCharsTrace p_str n (idx + 1) (file ++ [c]) (reads ++ [idx])

/-- The loop of `fetchLoop`, returning besides the files the final value of `idx`
and the indices of the buffer it has read, in order. -/
def fetchWalk (p_str : SharedStruct) :
    Nat → Int → QStringList → List Int → Option (QStringList × Int × List Int)
  | 0, idx, files, reads => if idx < p_str.m_filesBufIdx then none else some (files, idx, reads)
  | fuel + 1, idx, files, reads =>
    if idx < p_str.m_filesBufIdx then
      match readBuf p_str idx with
      | none => none
      | some v =>
        let strSize : Nat := v.val
        let idx1 := idx + 1
        if (strSize : Int) ≤ p_str.m_filesBufIdx - idx1 then
          match readCharsTrace p_str strSize idx1 [] (reads ++ [idx]) with
          | none => none
          | some (file, idx2, reads2) => fetchWalk p_str fuel idx2 (files ++ [file]) reads2
        else none
    else some (files, idx, reads)

/-! ## Concrete guards, structures and paths used in the examples -/

/-- A structure with every field zero: the contents of a new region on a
platform that clears new shared memory. -/
def zeroStruct : SharedStruct :=
  { m_magic := 0, m_filesBufIdx := 0, m_filesBuf := fun _ => 0, m_askedToShow := false }

/-- The shared structure right after a successful `tryRun`. -/
def freshStruct : SharedStruct := tryRunInit zeroStruct

/-- A guard that has become the primary: online and attached. -/
def primaryGuard : SingleInstanceGuardPrivate :=
  { m_online := true, m_sharedMemory := { isAttached := true } }

/-- A guard whose `tryRun` attached to the segment of another instance. -/
def secondaryGuard : SingleInstanceGuardPrivate :=
  { m_online := false, m_sharedMemory := { isAttached := true } }

/-- The code units of `"a.txt"`. -/
def aTxt : QString := [97, 46, 116, 120, 116]

/-- The code units of `"b.txt"`. -/
def bTxt : QString := [98, 46, 116, 120, 116]

/-- A path of `n` code units, all `'x'`. -/
def longPath (n : Nat) : QString := List.replicate n 120

/-- A shared structure of an earlier hand-off: initialised, cursor at 5, every
buffer entry zero. -/
def staleStruct : SharedStruct :=
  { m_magic := c_magic, m_filesBufIdx := 5, m_filesBuf := fun _ => 0, m_askedToShow := true }

/-- The cursor of the segment's structure after a call that returned. -/
def cursorAfter {α : Type} (r : Option (α × SingleInstanceGuardPrivate × Segment)) : Option Int :=
  match r with
  | some (_, _, some str) => some str.m_filesBufIdx
  | _ => none

/-- The shared structure after `"a.txt"` and `"b.txt"` have been handed off to a
fresh one: two records, twelve entries. -/
def twoFilesStruct : SharedStruct :=
  { m_magic := c_magic, m_filesBufIdx := 12,
    m_filesBuf := fun i => (encodeAll [aTxt, bTxt]).getD i 0, m_askedToShow := false }

/-- The structure holding `"a.txt"` and `"b.txt"` with a raise request pending. -/
def busyStruct : SharedStruct := { twoFilesStruct with m_askedToShow := true }

/-- The cursor lies inside the buffer: `0 <= m_filesBufIdx <= FilesBufCount`. -/
def CursorInBounds (str : SharedStruct) : Prop :=
  0 ≤ str.m_filesBufIdx ∧ str.m_filesBufIdx ≤ FilesBufCount

/-- The structure `s1` comes from `str` by appending only: the cursor has not
moved back and has not passed the end of the buffer unless it was beyond it
already, the entries below the old cursor and those past the end of the array
are as they were, and so are the magic number and the raise request. -/
def Extends (str s1 : SharedStruct) : Prop :=
  str.m_filesBufIdx ≤ s1.m_filesBufIdx ∧
    s1.m_filesBufIdx ≤ max str.m_filesBufIdx FilesBufCount ∧
    s1.m_magic = str.m_magic ∧ s1.m_askedToShow = str.m_askedToShow ∧
    ∀ j : Nat, (j : Int) < str.m_filesBufIdx ∨ FilesBufCount ≤ (j : Int) →
      s1.m_filesBuf j = str.m_filesBuf j

/-- A relation between the structures of a segment before and after a call, for
a call that neither binds nor unbinds the segment. -/
def SegmentRel (R : SharedStruct → SharedStruct → Prop) (seg seg1 : Segment) : Prop :=
  match seg, seg1 with
  | none, none => True
  | some str, some s1 => R str s1
  | _, _ => False

/-- The structure `s1` is `str` except, possibly, for the raise request. -/
def SameButAsked (str s1 : SharedStruct) : Prop :=
  s1.m_magic = str.m_magic ∧ s1.m_filesBufIdx = str.m_filesBufIdx ∧
    s1.m_filesBuf = str.m_filesBuf

/-- The structure `s1` is `str` except that the cursor may have been reset to 0. -/
def SameButCursor (str s1 : SharedStruct) : Prop :=
  s1.m_magic = str.m_magic ∧ s1.m_askedToShow = str.m_askedToShow ∧
    s1.m_filesBuf = str.m_filesBuf ∧
    (s1.m_filesBufIdx = str.m_filesBufIdx ∨ s1.m_filesBufIdx = 0)

/-- An initialised structure whose buffer is full: the cursor is at the end. -/
def fullStruct : SharedStruct :=
  { m_magic := c_magic, m_filesBufIdx := 1024, m_filesBuf := fun _ => 0, m_askedToShow := false }

/-- A sequence of calls used in the examples: the other guard hands off two
files and asks for the window, the primary polls both and exits, and the other
guard asks once more. -/
def sampleCalls : List (Bool × GuardCall) :=
  [(true, .openExternalFiles [aTxt, bTxt]), (true, .showInstance), (false, .fetchFilesToOpen),
    (false, .fetchAskedToShow), (false, .exit), (true, .showInstance)]

theorem cells_length (str : SharedStruct) (i n : Nat) : (cells str i n).length = n := by
  simp [cells]

theorem cells_succ (str : SharedStruct) (i n : Nat) :
    cells str i (n + 1) = str.m_filesBuf i :: cells str (i + 1) n := by
  simp [cells, List.range'_succ]

theorem cells_add (str : SharedStruct) (i m n : Nat) :
    cells str i (m + n) = cells str i m ++ cells str (i + m) n := by
  have h := List.range'_append i m n 1
  simp only [Nat.one_mul] at h
  rw [cells, Nat.add_comm m n, ← h, List.map_append]
  rfl

theorem cells_congr (s t : SharedStruct) (i n : Nat)
    (h : ∀ j, i ≤ j → j < i + n → s.m_filesBuf j = t.m_filesBuf j) :
    cells s i n = cells t i n := by
  unfold cells
  apply List.map_congr_left
  intro a ha
  rw [List.mem_range'] at ha
  obtain ⟨k, hk, rfl⟩ := ha
  exact h _ (by omega) (by omega)

theorem encodeRecord_length (p : QString) : (encodeRecord p).length = p.length + 1 := by
  simp [encodeRecord]

theorem encodeAll_append (a b : QStringList) :
    encodeAll (a ++ b) = encodeAll a ++ encodeAll b := by
  induction a with
  | nil => rfl
  | cons p ps ih => simp [encodeAll, ih]

theorem encodeAll_length (l : QStringList) : (encodeAll l).length = encodedSize l := by
  induction l with
  | nil => rfl
  | cons p ps ih =>
    simp only [encodeAll, List.length_append, encodeRecord_length, ih, encodedSize,
      List.map_cons, List.sum_cons]

theorem encodedSize_append (a b : QStringList) :
    encodedSize (a ++ b) = encodedSize a + encodedSize b := by
  simp [encodedSize]

theorem length_le_encodedSize (l : QStringList) : l.length ≤ encodedSize l := by
  induction l with
  | nil => simp [encodedSize]
  | cons p ps ih =>
    simp only [encodedSize, List.map_cons, List.sum_cons, List.length_cons] at ih ⊢
    omega

theorem readBuf_natCast (str : SharedStruct) (i : Nat) (h : i < 1024) :
    readBuf str (i : Int) = some (str.m_filesBuf i) := by
  have h1 : (0 : Int) ≤ (i : Int) ∧ (i : Int) < FilesBufCount := by
    unfold FilesBufCount
    omega
  simp [readBuf, h1]

theorem readChars_cells (str : SharedStruct) (n : Nat) :
    ∀ (i : Nat) (file : QString), i + n ≤ 1024 →
      readChars str n (i : Int) file = some (file ++ cells str i n, ((i + n : Nat) : Int)) := by
  induction n with
  | zero => intro i file _; simp [readChars, cells]
  | succ n ih =>
    intro i file h
    have h2 := ih (i + 1) (file ++ [str.m_filesBuf i]) (by omega)
    rw [readChars, readBuf_natCast str i (by omega)]
    simp only
    rw [show ((i : Int) + 1) = ((i + 1 : Nat) : Int) by push_cast; rfl, h2, cells_succ]
    simp [Nat.add_assoc, Nat.add_comm 1 n]

theorem toUshort_val (n : Nat) (h : n < 65536) : (toUshort n).val = n := by
  simp [toUshort, Nat.mod_eq_of_lt h]

/-- The decoding loop returns the records written in `m_filesBuf[i .. cursor)`. -/
theorem fetchLoop_decode (str : SharedStruct) (c : Nat) (hc : str.m_filesBufIdx = (c : Int))
    (hle : c ≤ 1024) :
    ∀ (recs : QStringList) (fuel i : Nat) (acc : QStringList),
      (∀ r ∈ recs, r.length < 65536) → i + encodedSize recs = c →
      cells str i (encodedSize recs) = encodeAll recs → recs.length ≤ fuel →
      fetchLoop str fuel (i : Int) acc = some (acc ++ recs) := by
  intro recs
  induction recs with
  | nil =>
    intro fuel i acc _ hi _ _
    have hi2 : i = c := by simpa [encodedSize] using hi
    cases fuel <;> simp [fetchLoop, hc, hi2]
  | cons r rs ih =>
    intro fuel i acc hlen hi hcells hfuel
    have hsz : encodedSize (r :: rs) = (r.length + 1) + encodedSize rs := by
      simp [encodedSize]
    rw [hsz] at hi hcells
    obtain ⟨fuel, rfl⟩ : ∃ f, fuel = f + 1 := ⟨fuel - 1, by simp at hfuel; omega⟩
    have hr : r.length < 65536 := hlen r (List.mem_cons_self _ _)
    rw [cells_add] at hcells
    have hsplit := List.append_inj hcells
      (by rw [cells_length, encodeRecord_length])
    obtain ⟨hrec, hrest⟩ := hsplit
    rw [Nat.add_comm r.length 1, cells_add] at hrec
    have hrec2 : cells str i 1 ++ cells str (i + 1) r.length = [toUshort r.length] ++ r := hrec
    have hsplit2 := List.append_inj hrec2 (by rw [cells_length]; rfl)
    obtain ⟨hhead, hbody⟩ := hsplit2
    have hhead2 : str.m_filesBuf i = toUshort r.length := by
      simpa [cells] using hhead
    have hlt : (i : Int) < str.m_filesBufIdx := by rw [hc]; omega
    rw [fetchLoop, if_pos hlt, readBuf_natCast str i (by omega)]
    simp only [hhead2, toUshort_val r.length hr]
    have hassert : (r.length : Int) ≤ str.m_filesBufIdx - ((i : Int) + 1) := by
      rw [hc]; omega
    rw [if_pos hassert, show ((i : Int) + 1) = ((i + 1 : Nat) : Int) by push_cast; rfl,
      readChars_cells str r.length (i + 1) [] (by omega), hbody]
    simp only [List.nil_append]
    have := ih fuel (i + 1 + r.length) (acc ++ [r])
      (fun x hx => hlen x (List.mem_cons_of_mem _ hx)) (by omega)
      (by rw [show i + 1 + r.length = i + (r.length + 1) by omega]; exact hrest)
      (by simp at hfuel; omega)
    rw [this]
    simp

theorem readChars_index (str : SharedStruct) (n : Nat) :
    ∀ (idx : Int) (file : QString) (r : QString × Int),
      readChars str n idx file = some r → r.2 = idx + n := by
  induction n with
  | zero =>
    intro idx file r h
    simp only [readChars, Option.some.injEq] at h
    rw [← h]
    simp
  | succ n ih =>
    intro idx file r h
    rw [readChars] at h
    cases hb : readBuf str idx with
    | none => rw [hb] at h; exact absurd h (by simp)
    | some c =>
      rw [hb] at h
      have := ih _ _ _ h
      rw [this]
      push_cast
      omega

/-- The fuel given by `fetchFilesToOpen` is enough on every structure: once the
fuel covers the distance from `idx` to the cursor, more fuel changes nothing, so
the decoding loop never stops for lack of fuel. -/
theorem fetchLoop_fuel (str : SharedStruct) :
    ∀ (fuel : Nat) (idx : Int) (acc : QStringList), str.m_filesBufIdx - idx ≤ fuel →
      fetchLoop str (fuel + 1) idx acc = fetchLoop str fuel idx acc := by
  intro fuel
  induction fuel with
  | zero =>
    intro idx acc h
    have hnot : ¬ idx < str.m_filesBufIdx := by omega
    simp only [fetchLoop, hnot, if_false]
  | succ fuel ih =>
    intro idx acc h
    rw [fetchLoop]
    conv_rhs => rw [fetchLoop]
    split
    · cases hb : readBuf str idx with
      | none => rfl
      | some v =>
        simp only
        split
        · cases hr : readChars str v.val (idx + 1) [] with
          | none => rfl
          | some r =>
            obtain ⟨file, idx2⟩ := r
            have hidx := readChars_index str _ _ _ _ hr
            simp only at hidx ⊢
            exact ih idx2 _ (by push_cast at h; rw [hidx]; omega)
        · rfl
    · rfl

/-! ## Lemmas on the encoder -/

theorem writeBuf_natCast (str : SharedStruct) (i : Nat) (v : ushort) (h : i < 1024) :
    writeBuf str (i : Int) v =
      some { str with m_filesBuf := Function.update str.m_filesBuf i v } := by
  have h1 : (0 : Int) ≤ (i : Int) ∧ (i : Int) < FilesBufCount := by
    unfold FilesBufCount
    omega
  simp [writeBuf, h1]

/-- The writing loop stores the code units at the cursor, advances the cursor
past them, and leaves every other entry and field as it was. -/
theorem writeChars_spec (cs : List QChar) :
    ∀ (str : SharedStruct) (c : Nat), str.m_filesBufIdx = (c : Int) → c + cs.length ≤ 1024 →
      ∃ s1, writeChars str cs = some s1 ∧
        s1.m_filesBufIdx = ((c + cs.length : Nat) : Int) ∧
        s1.m_magic = str.m_magic ∧ s1.m_askedToShow = str.m_askedToShow ∧
        (∀ j, j < c ∨ c + cs.length ≤ j → s1.m_filesBuf j = str.m_filesBuf j) ∧
        cells s1 c cs.length = cs := by
  induction cs with
  | nil =>
    intro str c hc _
    exact ⟨str, rfl, by simpa using hc, rfl, rfl, fun _ _ => rfl, rfl⟩
  | cons x xs ih =>
    intro str c hc hle
    simp only [List.length_cons] at hle ⊢
    rw [writeChars, hc, writeBuf_natCast str c x (by omega)]
    simp only [hc]
    obtain ⟨s1, h1, hidx, hmag, hask, hframe, hcells⟩ :=
      ih { str with m_filesBuf := Function.update str.m_filesBuf c x,
                    m_filesBufIdx := (c : Int) + 1 } (c + 1) (by push_cast; rfl) (by omega)
    refine ⟨s1, h1, ?_, hmag, hask, ?_, ?_⟩
    · rw [hidx]; push_cast; omega
    · intro j hj
      rw [hframe j (by omega)]
      simp only
      rw [Function.update_noteq (by omega)]
    · rw [Nat.add_comm xs.length 1, cells_add, hcells]
      have : s1.m_filesBuf c = x := by
        rw [hframe c (by omega)]
        simp
      simp [cells, this]

/-- A non-empty path that fits is written as one record at the cursor. -/
theorem appendFileToBuffer_written (str : SharedStruct) (p : QString) (c : Nat)
    (hc : str.m_filesBufIdx = (c : Int)) (hne : p ≠ []) (hfit : c + p.length + 1 ≤ 1024) :
    ∃ s1, appendFileToBuffer str p = some (true, s1) ∧
      s1.m_filesBufIdx = ((c + (p.length + 1) : Nat) : Int) ∧
      s1.m_magic = str.m_magic ∧ s1.m_askedToShow = str.m_askedToShow ∧
      (∀ j, j < c ∨ c + (p.length + 1) ≤ j → s1.m_filesBuf j = str.m_filesBuf j) ∧
      cells s1 c (p.length + 1) = encodeRecord p := by
  have hemp : p.isEmpty = false := by
    cases p with
    | nil => exact absurd rfl hne
    | cons _ _ => rfl
  have hspace : ¬ ((p.length : Int) + 1 > FilesBufCount - str.m_filesBufIdx) := by
    rw [hc]; unfold FilesBufCount; omega
  obtain ⟨s1, h1, hidx, hmag, hask, hframe, hcells⟩ :=
    writeChars_spec p
      { str with m_filesBuf := Function.update str.m_filesBuf c (toUshort p.length),
                 m_filesBufIdx := (c : Int) + 1 } (c + 1) (by push_cast; rfl) (by omega)
  refine ⟨s1, ?_, ?_, hmag, hask, ?_, ?_⟩
  · unfold appendFileToBuffer
    simp only [hemp, Bool.false_eq_true, if_false, hspace]
    rw [hc, writeBuf_natCast str c _ (by omega)]
    simp only [hc]
    rw [h1]
  · rw [hidx]; push_cast; omega
  · intro j hj
    rw [hframe j (by omega)]
    simp only
    rw [Function.update_noteq (by omega)]
  · rw [Nat.add_comm p.length 1, cells_add, hcells]
    have : s1.m_filesBuf c = toUshort p.length := by
      rw [hframe c (by omega)]
      simp
    simp [cells, this, encodeRecord]

/-- A non-empty path that does not fit is refused and nothing is written. -/
theorem appendFileToBuffer_refused (str : SharedStruct) (p : QString) (hne : p ≠ [])
    (hfull : (p.length : Int) + 1 > FilesBufCount - str.m_filesBufIdx) :
    appendFileToBuffer str p = some (false, str) := by
  have hemp : p.isEmpty = false := by
    cases p with
    | nil => exact absurd rfl hne
    | cons _ _ => rfl
  unfold appendFileToBuffer
  simp only [hemp, Bool.false_eq_true, if_false, hfull, if_true]

theorem Appended.refl (str : SharedStruct) (c : Nat) (hc : str.m_filesBufIdx = (c : Int)) :
    Appended str str c [] :=
  ⟨by simpa [encodedSize] using hc, rfl, rfl, fun _ _ => rfl, rfl⟩

theorem Appended.trans {str s1 s2 : SharedStruct} {c : Nat} {w1 w2 : QStringList}
    (h1 : Appended str s1 c w1) (h2 : Appended s1 s2 (c + encodedSize w1) w2) :
    Appended str s2 c (w1 ++ w2) := by
  obtain ⟨_, hm1, ha1, hf1, hc1⟩ := h1
  obtain ⟨hi2, hm2, ha2, hf2, hc2⟩ := h2
  refine ⟨?_, hm2.trans hm1, ha2.trans ha1, ?_, ?_⟩
  · rw [hi2, encodedSize_append, Nat.add_assoc]
  · intro j hj
    rw [encodedSize_append] at hj
    rw [hf2 j (by omega), hf1 j (by omega)]
  · rw [encodedSize_append, cells_add, hc2, encodeAll_append, ← hc1]
    congr 1
    apply cells_congr
    intro j _ hj
    exact hf2 j (by omega)

theorem Appended.single {str s1 : SharedStruct} {c : Nat} {p : QString}
    (hidx : s1.m_filesBufIdx = ((c + (p.length + 1) : Nat) : Int))
    (hmag : s1.m_magic = str.m_magic) (hask : s1.m_askedToShow = str.m_askedToShow)
    (hframe : ∀ j, j < c ∨ c + (p.length + 1) ≤ j → s1.m_filesBuf j = str.m_filesBuf j)
    (hcells : cells s1 c (p.length + 1) = encodeRecord p) :
    Appended str s1 c [p] := by
  have hsz : encodedSize [p] = p.length + 1 := by simp [encodedSize]
  refine ⟨by rw [hsz]; exact hidx, hmag, hask, by rw [hsz]; exact hframe, ?_⟩
  rw [hsz, hcells]
  simp [encodeAll]

/-- The written part after an append is the old written part followed by the
new records. -/
theorem Appended.pending_eq {str s1 : SharedStruct} {c : Nat} {w : QStringList}
    (hc : str.m_filesBufIdx = (c : Int)) (h : Appended str s1 c w) :
    pending s1 = pending str ++ encodeAll w := by
  obtain ⟨hi, _, _, hf, hcells⟩ := h
  unfold pending
  rw [hi, hc, Int.toNat_ofNat, Int.toNat_ofNat, cells_add, Nat.zero_add, hcells]
  congr 1
  apply cells_congr
  intro j _ hj
  exact hf j (by omega)

theorem deliverable_iff (p : QString) :
    deliverable p = true ↔ p ≠ [] ∧ p.length + 1 ≤ 1024 := by
  cases p with
  | nil => simp [deliverable]
  | cons x xs =>
    simp only [deliverable, List.isEmpty_cons, Bool.not_false, Bool.true_and, decide_eq_true_eq,
      FilesBufCount, ne_eq, reduceCtorEq, not_false_eq_true, true_and]
    omega

/-- One pass of the inner loop: it consumes `k` files, appends the deliverable
ones among them, and stops either at the end of the list or at a deliverable
file that does not fit in the remaining space. -/
theorem appendRound_spec (files : QStringList) :
    ∀ (str : SharedStruct) (c idx : Nat), str.m_filesBufIdx = (c : Int) →
      ∃ k s1, appendRound str files idx = some (idx + k, s1) ∧ k ≤ files.length ∧
        Appended str s1 c ((files.take k).filter deliverable) ∧
        (c ≤ 1024 → c + encodedSize ((files.take k).filter deliverable) ≤ 1024) ∧
        (k < files.length → ∃ f, files[k]? = some f ∧ deliverable f = true ∧
          (f.length : Int) + 1 > FilesBufCount - s1.m_filesBufIdx) := by
  induction files with
  | nil =>
    intro str c idx hc
    exact ⟨0, str, rfl, Nat.le_refl _, Appended.refl str c hc, by simp [encodedSize],
      fun h => absurd h (by simp)⟩
  | cons f rest ih =>
    intro str c idx hc
    by_cases hd : deliverable f = true
    · obtain ⟨hne, hlen⟩ := (deliverable_iff f).1 hd
      have hbig : ¬ ((f.length : Int) + 1 > FilesBufCount) := by
        unfold FilesBufCount; omega
      by_cases hfull : (f.length : Int) + 1 > FilesBufCount - str.m_filesBufIdx
      · refine ⟨0, str, ?_, Nat.zero_le _, Appended.refl str c hc, by simp [encodedSize],
          fun _ => ⟨f, by simp, hd, hfull⟩⟩
        rw [appendRound, if_neg hbig, appendFileToBuffer_refused str f hne hfull]
        rfl
      · have hfit : c + f.length + 1 ≤ 1024 := by
          rw [hc] at hfull; unfold FilesBufCount at hfull; omega
        obtain ⟨s1, happ, hidx, hmag, hask, hframe, hcells⟩ :=
          appendFileToBuffer_written str f c hc hne hfit
        have hA : Appended str s1 c [f] := Appended.single hidx hmag hask hframe hcells
        obtain ⟨k, s2, hround, hk, hB, hbound, hstuck⟩ :=
          ih s1 (c + encodedSize [f]) (idx + 1) (by rw [hidx]; simp [encodedSize])
        have hsz : encodedSize [f] = f.length + 1 := by simp [encodedSize]
        refine ⟨k + 1, s2, ?_, by simpa using hk, ?_, ?_, ?_⟩
        · rw [appendRound, if_neg hbig, happ]
          simp only [hround]
          congr 2
          omega
        · have := Appended.trans hA hB
          simpa [List.take_succ_cons, List.filter_cons, hd] using this
        · intro _
          have h1 := hbound (by omega)
          have h2 : (f :: rest).take (k + 1) = [f] ++ rest.take k := rfl
          rw [h2, List.filter_append, encodedSize_append]
          have h3 : [f].filter deliverable = [f] := by simp [List.filter_cons, hd]
          rw [h3]
          omega
        · intro hlt
          obtain ⟨g, hg, hgd, hgfull⟩ := hstuck (by simpa using hlt)
          exact ⟨g, by simpa using hg, hgd, hgfull⟩
    · obtain ⟨k, s1, hround, hk, hA, hbound, hstuck⟩ := ih str c (idx + 1) hc
      refine ⟨k + 1, s1, ?_, by simpa using hk, ?_, ?_, ?_⟩
      · rw [appendRound]
        by_cases hbig : (f.length : Int) + 1 > FilesBufCount
        · rw [if_pos hbig, hround]
          congr 2
          omega
        · have hnil : f = [] := by
            by_contra hne
            exact hd ((deliverable_iff f).2 ⟨hne, by unfold FilesBufCount at hbig; omega⟩)
          subst hnil
          rw [if_neg hbig]
          simp only [appendFileToBuffer, List.isEmpty_nil, if_true, hround]
          congr 2
          omega
      · simpa [List.take_succ_cons, List.filter_cons, hd] using hA
      · simpa [List.take_succ_cons, List.filter_cons, hd] using hbound
      · intro hlt
        obtain ⟨g, hg, hgd, hgfull⟩ := hstuck (by simpa using hlt)
        exact ⟨g, by simpa using hg, hgd, hgfull⟩

/-! ## Lemmas on the retry loop -/

/-- One round of `openExternalFiles` on an initialised structure. -/
theorem openRound_spec (files : QStringList) (idx : Nat) (str : SharedStruct) (c : Nat)
    (hmagic : str.m_magic = c_magic) (hc : str.m_filesBufIdx = (c : Int)) :
    ∃ k s1, openRound files idx str = some (idx + k, s1) ∧ idx + k ≤ max idx files.length ∧
      Appended str s1 c (((files.drop idx).take k).filter deliverable) ∧
      (c ≤ 1024 → c + encodedSize (((files.drop idx).take k).filter deliverable) ≤ 1024) ∧
      (idx + k < files.length → ∃ f, files[idx + k]? = some f ∧ deliverable f = true ∧
        (f.length : Int) + 1 > FilesBufCount - s1.m_filesBufIdx) := by
  obtain ⟨k, s1, hround, hk, hA, hbound, hstuck⟩ := appendRound_spec (files.drop idx) str c idx hc
  refine ⟨k, s1, ?_, ?_, hA, hbound, ?_⟩
  · rw [openRound, if_pos hmagic, hround]
  · rw [List.length_drop] at hk
    have hcases : idx + k ≤ idx ∨ idx + k ≤ files.length := by
      clear hA hbound hstuck hround
      omega
    exact hcases.elim (fun h => le_trans h (le_max_left _ _))
      (fun h => le_trans h (le_max_right _ _))
  · intro hlt
    obtain ⟨f, hf, hfd, hfull⟩ := hstuck (by rw [List.length_drop]; omega)
    exact ⟨f, by rw [← hf, List.getElem?_drop], hfd, hfull⟩

/-- A round that starts at a deliverable file that does not fit changes nothing. -/
theorem openRound_stuck (files : QStringList) (idx : Nat) (str : SharedStruct) (f : QString)
    (hmagic : str.m_magic = c_magic) (hf : files[idx]? = some f) (hd : deliverable f = true)
    (hfull : (f.length : Int) + 1 > FilesBufCount - str.m_filesBufIdx) :
    openRound files idx str = some (idx, str) := by
  obtain ⟨hne, hlen⟩ := (deliverable_iff f).1 hd
  have hlt : idx < files.length := by
    by_contra hge
    rw [List.getElem?_eq_none (by omega)] at hf
    exact absurd hf (by simp)
  have hdrop : files.drop idx = f :: files.drop (idx + 1) := by
    rw [List.drop_eq_getElem_cons hlt]
    congr 1
    rw [List.getElem?_eq_getElem hlt] at hf
    exact Option.some.inj hf
  have hbig : ¬ ((f.length : Int) + 1 > FilesBufCount) := by
    unfold FilesBufCount; omega
  rw [openRound, if_pos hmagic, hdrop, appendRound, if_neg hbig,
    appendFileToBuffer_refused str f hne hfull]

/-- While nobody drains, every further round at a file that does not fit
changes nothing: the loop only uses up its budget. -/
theorem openLoop_stuck (files : QStringList) (str : SharedStruct) (f : QString) (idx : Nat)
    (hmagic : str.m_magic = c_magic) (hf : files[idx]? = some f) (hd : deliverable f = true)
    (hfull : (f.length : Int) + 1 > FilesBufCount - str.m_filesBufIdx) :
    ∀ (t r : Nat), openLoop quiescent files t { idx := idx, rounds := r, env := () } str =
      some ({ idx := idx, rounds := r + t, env := () }, str) := by
  have hlt : idx < files.length := by
    by_contra hge
    rw [List.getElem?_eq_none (by omega)] at hf
    exact absurd hf (by simp)
  intro t
  induction t with
  | zero => intro r; rfl
  | succ t ih =>
    intro r
    rw [openLoop]
    simp only [openRound_stuck files idx str f hmagic hf hd hfull, hlt, if_true, quiescent]
    rw [ih (r + 1)]
    congr 3
    omega

/-- The retry loop while nobody drains: the first round writes what fits, and
the remaining budget is used up without effect when a file is left over. -/
theorem openLoop_quiescent (files : QStringList) (str : SharedStruct) (c : Nat)
    (hmagic : str.m_magic = c_magic) (hc : str.m_filesBufIdx = (c : Int)) (t : Nat) :
    ∃ k s1, openLoop quiescent files (t + 1) { idx := 0, rounds := 0, env := () } str =
        some ({ idx := k, rounds := if k < files.length then t + 1 else 1, env := () }, s1) ∧
      k ≤ files.length ∧
      Appended str s1 c ((files.take k).filter deliverable) ∧
      (c ≤ 1024 → c + encodedSize ((files.take k).filter deliverable) ≤ 1024) ∧
      (k < files.length → ∃ f, files[k]? = some f ∧ deliverable f = true ∧
        (f.length : Int) + 1 > FilesBufCount - s1.m_filesBufIdx) := by
  obtain ⟨k, s1, hround, hk, hA, hbound, hstuck⟩ := openRound_spec files 0 str c hmagic hc
  simp only [Nat.zero_add, List.drop_zero] at hround hk hA hbound hstuck
  have hk2 : k ≤ files.length := by omega
  refine ⟨k, s1, ?_, hk2, hA, hbound, hstuck⟩
  rw [openLoop]
  simp only [hround]
  by_cases hlt : k < files.length
  · obtain ⟨f, hf, hd, hfull⟩ := hstuck hlt
    have hm1 : s1.m_magic = c_magic := hA.2.1.trans hmagic
    simp only [hlt, if_true, quiescent]
    rw [openLoop_stuck files s1 f k hm1 hf hd hfull t (0 + 1)]
    congr 3
    omega
  · simp only [hlt, if_false]

/-! ## Lemmas on fetching -/

/-- On an initialised structure whose written part is the records of `recs`,
the critical section of `fetchFilesToOpen` returns `recs` and resets the cursor. -/
theorem fetchFilesSection_records (str : SharedStruct) (recs : QStringList)
    (hmagic : str.m_magic = c_magic) (h : PendingRecords str recs) :
    fetchFilesSection str = some (recs, { str with m_filesBufIdx := 0 }) := by
  obtain ⟨h0, hle, hpend, hlen⟩ := h
  obtain ⟨c, hc⟩ : ∃ c : Nat, str.m_filesBufIdx = (c : Int) := ⟨str.m_filesBufIdx.toNat, by omega⟩
  have hc1024 : c ≤ 1024 := by rw [hc] at hle; unfold FilesBufCount at hle; omega
  have hsize : encodedSize recs = c := by
    have := congrArg List.length hpend
    rw [pending, cells_length, encodeAll_length, hc, Int.toNat_ofNat] at this
    exact this.symm
  have hcells : cells str 0 (encodedSize recs) = encodeAll recs := by
    rw [hsize, ← hpend, pending, hc, Int.toNat_ofNat]
  have hloop := fetchLoop_decode str c hc hc1024 recs c 0 []
    (fun r hr => by have := (hlen r hr).2; omega) (by omega) hcells
    (by rw [← hsize]; exact length_le_encodedSize recs)
  rw [fetchFilesSection, if_pos hmagic, if_pos hle, hc, Int.toNat_ofNat]
  simp only [Nat.cast_zero] at hloop
  simp only [hloop, List.nil_append]

/-- Appending deliverable paths inside the buffer keeps the written part a
sequence of records. -/
theorem PendingRecords.appended {str s1 : SharedStruct} {c : Nat} {recs w : QStringList}
    (hc : str.m_filesBufIdx = (c : Int)) (h : PendingRecords str recs) (hA : Appended str s1 c w)
    (hw : ∀ r ∈ w, deliverable r = true) (hbound : c + encodedSize w ≤ 1024) :
    PendingRecords s1 (recs ++ w) := by
  obtain ⟨_, _, hpend, hlen⟩ := h
  refine ⟨?_, ?_, ?_, ?_⟩
  · rw [hA.1]; omega
  · rw [hA.1]; unfold FilesBufCount; omega
  · rw [hA.pending_eq hc, hpend, encodeAll_append]
  · intro r hr
    rcases List.mem_append.1 hr with h1 | h2
    · exact hlen r h1
    · obtain ⟨hne, hl⟩ := (deliverable_iff r).1 (hw r h2)
      have : r.length ≠ 0 := fun h0 => hne (List.length_eq_zero.1 h0)
      omega

theorem data_attached (m : QSharedMemory) (seg : Segment) (h : m.isAttached = true) :
    m.data seg = seg := by
  simp [QSharedMemory.data, h]

/-- On a bound segment the opening of `showInstance` and `openExternalFiles`
goes on, with the handle attached. -/
theorem ensureAttached_bound (g : SingleInstanceGuardPrivate) (str : SharedStruct) :
    ∃ g1, ensureAttached g (some str) = (true, g1) ∧ g1.m_sharedMemory.isAttached = true ∧
      g1.m_online = g.m_online := by
  by_cases h : g.m_sharedMemory.isAttached = true
  · exact ⟨g, by simp [ensureAttached, h], h, rfl⟩
  · exact ⟨{ g with m_sharedMemory := { isAttached := true } },
      by simp [ensureAttached, h, QSharedMemory.attach], rfl, rfl⟩

/-- The method `fetchFilesToOpen` of an online, attached guard on a
well-formed structure. -/
theorem fetchFilesToOpen_records (g : SingleInstanceGuardPrivate) (str : SharedStruct)
    (recs : QStringList) (hon : g.m_online = true) (hatt : g.m_sharedMemory.isAttached = true)
    (hmagic : str.m_magic = c_magic) (h : PendingRecords str recs) :
    fetchFilesToOpen g (some str) = some (recs, g, some { str with m_filesBufIdx := 0 }) := by
  simp [fetchFilesToOpen, hon, data_attached _ _ hatt,
    fetchFilesSection_records str recs hmagic h]

/-- The method `openExternalFiles` on a bound, initialised segment while nobody
drains: what is written and where the hand-off stops. -/
theorem openExternalFilesWith_quiescent (g : SingleInstanceGuardPrivate) (files : QStringList)
    (str : SharedStruct) (c : Nat) (hmagic : str.m_magic = c_magic)
    (hc : str.m_filesBufIdx = (c : Int)) :
    ∃ p g1 s1, openExternalFilesWith quiescent () g files (some str) = some (p, g1, some s1) ∧
      p.rounds ≤ 100 ∧ p.idx ≤ files.length ∧
      Appended str s1 c ((files.take p.idx).filter deliverable) ∧
      (c ≤ 1024 → c + encodedSize ((files.take p.idx).filter deliverable) ≤ 1024) ∧
      (p.idx < files.length → p.rounds = 100 ∧ ∃ f, files[p.idx]? = some f ∧
        deliverable f = true ∧ (f.length : Int) + 1 > FilesBufCount - s1.m_filesBufIdx) := by
  cases files with
  | nil =>
    exact ⟨{ idx := 0, rounds := 0, env := () }, g, str, rfl, by simp, by simp,
      Appended.refl str c hc, by simp [encodedSize], fun h => absurd h (by simp)⟩
  | cons f rest =>
    obtain ⟨g1, hg1, hatt, _⟩ := ensureAttached_bound g str
    obtain ⟨k, s1, hloop, hk, hA, hbound, hstuck⟩ :=
      openLoop_quiescent (f :: rest) str c hmagic hc 99
    refine ⟨{ idx := k, rounds := if k < (f :: rest).length then 99 + 1 else 1, env := () },
      g1, s1, ?_, ?_, hk, hA, hbound, ?_⟩
    · simp only [openExternalFilesWith, List.isEmpty_cons, Bool.false_eq_true, if_false, hg1,
        data_attached _ _ hatt, hloop]
    · simp only
      split <;> omega
    · intro hlt
      simp only at hlt
      exact ⟨by simp only [hlt, if_true], hstuck hlt⟩

theorem pendingRecords_of_drained (str : SharedStruct) (h : str.m_filesBufIdx = 0) :
    PendingRecords str [] := by
  refine ⟨by omega, by rw [h]; unfold FilesBufCount; omega, ?_, fun r hr => absurd hr (by simp)⟩
  simp [pending, h, cells, encodeAll]

theorem length_succ_le_encodedSize (files : QStringList) (p : QString) (hp : p ∈ files) :
    p.length + 1 ≤ encodedSize files := by
  induction files with
  | nil => exact absurd hp (by simp)
  | cons f rest ih =>
    have hsz : encodedSize (f :: rest) = (f.length + 1) + encodedSize rest := by
      simp [encodedSize]
    rcases List.mem_cons.1 hp with h | h
    · subst h; omega
    · have := ih h; omega

/-- When the deliverable files of the input fit in the remaining space, a
hand-off while nobody drains writes all of them in the first round, and a
fetch that follows returns the records that were pending and then these files. -/
theorem handoffThenFetch_fits (secondary primary : SingleInstanceGuardPrivate)
    (files : QStringList) (str : SharedStruct) (recs : QStringList)
    (hon : primary.m_online = true) (hatt : primary.m_sharedMemory.isAttached = true)
    (hmagic : str.m_magic = c_magic) (h : PendingRecords str recs)
    (hfit : (encodedSize (files.filter deliverable) : Int) ≤ FilesBufCount - str.m_filesBufIdx) :
    ∃ g1 s1, openExternalFiles secondary files (some str) = some (g1, some s1) ∧
      s1.m_magic = c_magic ∧
      pending s1 = pending str ++ encodeAll (files.filter deliverable) ∧
      PendingRecords s1 (recs ++ files.filter deliverable) ∧
      handoffThenFetch secondary primary files (some str) =
        some (recs ++ files.filter deliverable) := by
  obtain ⟨c, hc⟩ : ∃ c : Nat, str.m_filesBufIdx = (c : Int) :=
    ⟨str.m_filesBufIdx.toNat, by have := h.1; omega⟩
  obtain ⟨p, g1, s1, hopen, _, hk, hA, _, hstuck⟩ :=
    openExternalFilesWith_quiescent secondary files str c hmagic hc
  have hfit2 : c + encodedSize (files.filter deliverable) ≤ 1024 := by
    rw [hc] at hfit; unfold FilesBufCount at hfit; omega
  have hall : p.idx = files.length := by
    by_contra hne
    obtain ⟨_, f, hf, hd, hfull⟩ := hstuck (by omega)
    have hlt : p.idx < files.length := by omega
    have hdrop : files.drop p.idx = f :: files.drop (p.idx + 1) := by
      rw [List.drop_eq_getElem_cons hlt]
      congr 1
      rw [List.getElem?_eq_getElem hlt] at hf
      exact Option.some.inj hf
    have hsplit : encodedSize (files.filter deliverable) =
        encodedSize ((files.take p.idx).filter deliverable) +
          encodedSize ((files.drop p.idx).filter deliverable) := by
      rw [← encodedSize_append, ← List.filter_append, List.take_append_drop]
    have hge : f.length + 1 ≤ encodedSize ((files.drop p.idx).filter deliverable) := by
      apply length_succ_le_encodedSize
      rw [hdrop]
      simp [List.filter_cons, hd]
    rw [hA.1] at hfull
    unfold FilesBufCount at hfull
    omega
  rw [hall, List.take_length] at hA
  have hm1 : s1.m_magic = c_magic := hA.2.1.trans hmagic
  have hP : PendingRecords s1 (recs ++ files.filter deliverable) :=
    PendingRecords.appended hc h hA (fun r hr => (List.mem_filter.1 hr).2) hfit2
  have hopen2 : openExternalFiles secondary files (some str) = some (g1, some s1) := by
    simp only [openExternalFiles, hopen]
  refine ⟨g1, s1, hopen2, hm1, hA.pending_eq hc, hP, ?_⟩
  simp only [handoffThenFetch, hopen2, fetchFilesToOpen_records primary s1 _ hon hatt hm1 hP]

/-! ## The hand-off round trip: claims C1 and C2 -/

/-- Claim C1, amended.  For every list of non-empty paths whose encoded size
(code-unit count plus one, summed) is at most 1024, on a drained shared structure
(cursor 0) owned by an online primary, one `openExternalFiles(files)` by another
guard followed immediately by the primary's `fetchFilesToOpen` returns exactly
`files`, in the same order. -/
theorem handoff_roundtrip (secondary primary : SingleInstanceGuardPrivate) (files : QStringList)
    (str : SharedStruct) (hp : OnlinePrimary primary (some str)) (hfresh : str.m_filesBufIdx = 0)
    (hne : ∀ p ∈ files, p ≠ []) (hsize : encodedSize files ≤ 1024) :
    handoffThenFetch secondary primary files (some str) = some files := by
  obtain ⟨hon, hatt, s, hs, hmagic⟩ := hp
  obtain rfl : str = s := Option.some.inj hs
  have hall : files.filter deliverable = files := by
    rw [List.filter_eq_self]
    intro p hpf
    exact (deliverable_iff p).2
      ⟨hne p hpf, le_trans (length_succ_le_encodedSize files p hpf) hsize⟩
  obtain ⟨_, _, _, _, _, _, hres⟩ := handoffThenFetch_fits secondary primary files str [] hon hatt
    hmagic (pendingRecords_of_drained str hfresh)
    (by rw [hall, hfresh]; unfold FilesBufCount; omega)
  rw [hres, hall, List.nil_append]

/-- The scenario of claim C1: the primary's structure is fresh, the secondary
hands off `["a.txt", "b.txt"]`, and the primary fetches exactly that list. -/
theorem handoff_roundtrip_witness :
    OnlinePrimary primaryGuard (some freshStruct) ∧ freshStruct.m_filesBufIdx = 0 ∧
      encodedSize [aTxt, bTxt] ≤ 1024 ∧
      handoffThenFetch secondaryGuard primaryGuard [aTxt, bTxt] (some freshStruct) =
        some [aTxt, bTxt] :=
  ⟨⟨rfl, rfl, freshStruct, rfl, rfl⟩, rfl, by decide,
    handoff_roundtrip secondaryGuard primaryGuard [aTxt, bTxt] freshStruct
      ⟨rfl, rfl, freshStruct, rfl, rfl⟩ rfl (by decide) (by decide)⟩

/-- Claim C1 as stated fails on a list holding an empty path: the list `[""]`
has encoded size 1, yet after the hand-off the primary fetches the empty list. -/
theorem handoff_roundtrip_empty_path_lost :
    OnlinePrimary primaryGuard (some freshStruct) ∧ freshStruct.m_filesBufIdx = 0 ∧
      encodedSize [[]] ≤ 1024 ∧
      handoffThenFetch secondaryGuard primaryGuard [[]] (some freshStruct) = some [] ∧
      handoffThenFetch secondaryGuard primaryGuard [[]] (some freshStruct) ≠ some [[]] := by
  refine ⟨⟨rfl, rfl, freshStruct, rfl, rfl⟩, rfl, by decide, ?_, ?_⟩
  · decide
  · decide

theorem longPath_length (n : Nat) : (longPath n).length = n := by
  simp only [longPath, List.length_replicate]

theorem longPath_not_deliverable : deliverable (longPath 1024) = false := by
  rw [Bool.eq_false_iff]
  intro h
  have := ((deliverable_iff _).1 h).2
  rw [longPath_length] at this
  omega

theorem filter_short_eq (l : QStringList) :
    (l.filter fun p => !p.isEmpty && decide (p.length ≤ 1023)) = l.filter deliverable := by
  apply List.filter_congr
  intro p _
  have hdec : decide (p.length ≤ 1023) = decide ((p.length : Int) + 1 ≤ FilesBufCount) :=
    decide_eq_decide.2 (by unfold FilesBufCount; omega)
  rw [deliverable, hdec]

theorem encodedSize_filter_take_mono (l : QStringList) (a b : Nat) (hab : a ≤ b) :
    encodedSize ((l.take a).filter deliverable) ≤ encodedSize ((l.take b).filter deliverable) := by
  have h1 : l.take b = (l.take b).take a ++ (l.take b).drop a := (List.take_append_drop a _).symm
  rw [List.take_take, Nat.min_eq_left hab] at h1
  rw [h1, List.filter_append, encodedSize_append]
  omega

theorem encodedSize_filter_take_succ (l : QStringList) (k : Nat) (f : QString)
    (hf : l[k]? = some f) (hd : deliverable f = true) :
    encodedSize ((l.take (k + 1)).filter deliverable) =
      encodedSize ((l.take k).filter deliverable) + (f.length + 1) := by
  rw [List.take_succ, hf, List.filter_append, encodedSize_append]
  simp [List.filter_cons, hd, encodedSize]

/-- The hand-off to a well-formed structure while nobody drains, followed by a
fetch: the files written are the deliverable ones before the index at which
the hand-off stops, and a deliverable file is among them as soon as it fits
together with the deliverable files before it. -/
theorem handoffThenFetch_written (secondary primary : SingleInstanceGuardPrivate)
    (files : QStringList) (str : SharedStruct) (recs : QStringList)
    (hon : primary.m_online = true) (hatt : primary.m_sharedMemory.isAttached = true)
    (hmagic : str.m_magic = c_magic) (h : PendingRecords str recs) :
    ∃ g1 s1 k, openExternalFiles secondary files (some str) = some (g1, some s1) ∧
      openExternalFilesWith quiescent () secondary files (some str) =
        some ({ idx := k, rounds := if k < files.length then 100 else
          if files = [] then 0 else 1, env := () }, g1, some s1) ∧
      pending s1 = pending str ++ encodeAll ((files.take k).filter deliverable) ∧
      PendingRecords s1 (recs ++ (files.take k).filter deliverable) ∧
      handoffThenFetch secondary primary files (some str) =
        some (recs ++ (files.take k).filter deliverable) ∧
      (∀ (i : Nat) (p : QString), files[i]? = some p → deliverable p = true →
        (encodedSize ((files.take (i + 1)).filter deliverable) : Int)
          ≤ FilesBufCount - str.m_filesBufIdx → i < k) := by
  obtain ⟨c, hc⟩ : ∃ c : Nat, str.m_filesBufIdx = (c : Int) :=
    ⟨str.m_filesBufIdx.toNat, by have := h.1; omega⟩
  have hc1024 : c ≤ 1024 := by
    have := h.2.1; rw [hc] at this; unfold FilesBufCount at this; omega
  obtain ⟨p, g1, s1, hopen, hrounds, hk, hA, hbound, hstuck⟩ :=
    openExternalFilesWith_quiescent secondary files str c hmagic hc
  have hm1 : s1.m_magic = c_magic := hA.2.1.trans hmagic
  have hP : PendingRecords s1 (recs ++ (files.take p.idx).filter deliverable) :=
    PendingRecords.appended hc h hA (fun r hr => (List.mem_filter.1 hr).2) (hbound hc1024)
  have hopen2 : openExternalFiles secondary files (some str) = some (g1, some s1) := by
    simp only [openExternalFiles, hopen]
  have hrnd : p.rounds = if p.idx < files.length then 100 else if files = [] then 0 else 1 := by
    cases files with
    | nil =>
      simp only [openExternalFilesWith, List.isEmpty_nil, if_true, Option.some.injEq,
        Prod.mk.injEq] at hopen
      rw [← hopen.1]
      simp
    | cons f rest =>
      obtain ⟨g2, hg2, hatt2, _⟩ := ensureAttached_bound secondary str
      obtain ⟨k, s2, hloop, _, _, _, _⟩ := openLoop_quiescent (f :: rest) str c hmagic hc 99
      simp only [openExternalFilesWith, List.isEmpty_cons, Bool.false_eq_true, if_false, hg2,
        data_attached _ _ hatt2, hloop, Option.some.injEq, Prod.mk.injEq] at hopen
      rw [← hopen.1]
      simp
  refine ⟨g1, s1, p.idx, hopen2, ?_, hA.pending_eq hc, hP, ?_, ?_⟩
  · rw [hopen, ← hrnd]
  · simp only [handoffThenFetch, hopen2, fetchFilesToOpen_records primary s1 _ hon hatt hm1 hP]
  · intro i q hq hd hfit
    by_contra hge
    have hi : i < files.length := by
      by_contra hlen
      rw [List.getElem?_eq_none (by omega)] at hq
      exact absurd hq (by simp)
    obtain ⟨_, f, hf, hfd, hfull⟩ := hstuck (by omega)
    have hmono := encodedSize_filter_take_mono files (p.idx + 1) (i + 1) (by omega)
    rw [encodedSize_filter_take_succ files p.idx f hf hfd] at hmono
    rw [hA.1] at hfull
    rw [hc] at hfit
    unfold FilesBufCount at hfull hfit
    omega

/-- Claim C2, amended.  For every input list, handed off while nobody drains to a
well-formed structure of an online primary: `openExternalFiles` returns
and appends exactly the records of a list `written` of paths of the input that
are non-empty and of at most 1023 code units, so a path longer than 1023 code
units is never written, and it is not in the list decoded by
`fetchFilesToOpen`; and every non-empty path of at most 1023 code units, in
particular one that follows a long path, is written and delivered, given that
it fits in the space left together with the non-empty paths of at most 1023 code
units that precede it in the input. -/
theorem oversized_path_skipped (secondary primary : SingleInstanceGuardPrivate)
    (files : QStringList) (str : SharedStruct) (recs : QStringList)
    (hp : OnlinePrimary primary (some str)) (h : PendingRecords str recs) :
    ∃ g1 s1 written, openExternalFiles secondary files (some str) = some (g1, some s1) ∧
      pending s1 = pending str ++ encodeAll written ∧
      (∀ p ∈ written, p ∈ files ∧ p ≠ [] ∧ p.length ≤ 1023) ∧
      handoffThenFetch secondary primary files (some str) = some (recs ++ written) ∧
      (∀ p, 1023 < p.length → p ∉ recs ++ written) ∧
      (∀ (i : Nat) (p : QString), files[i]? = some p → p ≠ [] → p.length ≤ 1023 →
        (encodedSize ((files.take (i + 1)).filter
            fun q => !q.isEmpty && decide (q.length ≤ 1023)) : Int)
          ≤ FilesBufCount - str.m_filesBufIdx →
        p ∈ written) := by
  obtain ⟨hon, hatt, s, hs, hmagic⟩ := hp
  obtain rfl : str = s := Option.some.inj hs
  obtain ⟨g1, s1, k, hopen, _, hpend, hP, hres, hin⟩ :=
    handoffThenFetch_written secondary primary files str recs hon hatt hmagic h
  refine ⟨g1, s1, (files.take k).filter deliverable, hopen, hpend, ?_, hres, ?_, ?_⟩
  · intro p hpw
    obtain ⟨hmem, hd⟩ := List.mem_filter.1 hpw
    obtain ⟨hne, hlen⟩ := (deliverable_iff p).1 hd
    exact ⟨List.mem_of_mem_take hmem, hne, by omega⟩
  · intro p hlong hmem
    have := (hP.2.2.2 p hmem).2
    omega
  · intro i p hpi hne hlen hfit
    rw [filter_short_eq] at hfit
    have hd : deliverable p = true := (deliverable_iff p).2 ⟨hne, by omega⟩
    have hik := hin i p hpi hd hfit
    exact List.mem_filter.2
      ⟨List.getElem?_mem (by rw [List.getElem?_take_of_lt hik]; exact hpi), hd⟩

/-- Claim C2 at a concrete input: a path of 1024 code units between `"a.txt"`
and `"b.txt"`, handed off to the fresh structure.  The follower `"b.txt"` fits
together with `"a.txt"` and is written. -/
theorem oversized_path_skipped_witness :
    ∃ g1 s1 written,
      openExternalFiles secondaryGuard [aTxt, longPath 1024, bTxt] (some freshStruct) =
        some (g1, some s1) ∧
      pending s1 = pending freshStruct ++ encodeAll written ∧
      (∀ p ∈ written, p ∈ [aTxt, longPath 1024, bTxt] ∧ p ≠ [] ∧ p.length ≤ 1023) ∧
      handoffThenFetch secondaryGuard primaryGuard [aTxt, longPath 1024, bTxt]
        (some freshStruct) = some ([] ++ written) ∧
      (∀ p, 1023 < p.length → p ∉ [] ++ written) ∧
      bTxt ∈ written := by
  obtain ⟨g1, s1, written, h1, h2, h3, h4, h5, h6⟩ :=
    oversized_path_skipped secondaryGuard primaryGuard [aTxt, longPath 1024, bTxt] freshStruct []
      ⟨rfl, rfl, freshStruct, rfl, rfl⟩ (pendingRecords_of_drained freshStruct rfl)
  refine ⟨g1, s1, written, h1, h2, h3, h4, h5, h6 2 bTxt rfl (by decide) (by decide) ?_⟩
  have hlong : (!(longPath 1024).isEmpty && decide ((longPath 1024).length ≤ 1023)) = false := by
    rw [longPath_length]; simp
  have ha : (!aTxt.isEmpty && decide (aTxt.length ≤ 1023)) = true := by decide
  have hb : (!bTxt.isEmpty && decide (bTxt.length ≤ 1023)) = true := by decide
  have htake : List.take (2 + 1) [aTxt, longPath 1024, bTxt] = [aTxt, longPath 1024, bTxt] := rfl
  rw [htake]
  simp only [List.filter_cons, hlong, ha, hb, List.filter_nil]
  decide

set_option maxRecDepth 100000 in
/-- Claim C2 as stated fails in two ways.  In `[long, ""]` the empty path follows
the long one, is shorter and needs no space, yet it is not delivered.  In
`[600 units, 600 units, long, "a.txt"]` the path `"a.txt"` follows the long one
and would fit in the space left after the first path, yet the hand-off stays at
the second path, which does not fit, until its rounds are used up, and
`"a.txt"` is neither written nor delivered. -/
theorem oversized_path_skipped_empty_follower_lost :
    OnlinePrimary primaryGuard (some freshStruct) ∧
      ([longPath 1024, []].get? 1 = some [] ∧ 1023 < (longPath 1024).length ∧
        ∃ fetched, handoffThenFetch secondaryGuard primaryGuard [longPath 1024, []]
          (some freshStruct) = some fetched ∧ ([] : QString) ∉ fetched) ∧
      ([longPath 600, longPath 600, longPath 1024, aTxt].get? 3 = some aTxt ∧
        1023 < (longPath 1024).length ∧
        ((longPath 600).length + 1) + (aTxt.length + 1) ≤ 1024 ∧
        handoffThenFetch secondaryGuard primaryGuard
          [longPath 600, longPath 600, longPath 1024, aTxt] (some freshStruct) =
            some [longPath 600] ∧
        aTxt ∉ [longPath 600]) := by
  refine ⟨⟨rfl, rfl, freshStruct, rfl, rfl⟩,
    ⟨rfl, by rw [longPath_length]; omega, [], ?_, List.not_mem_nil _⟩,
    ⟨rfl, by rw [longPath_length]; omega, by rw [longPath_length]; decide, ?_, ?_⟩⟩
  · have hnone : [longPath 1024, []].filter deliverable = [] := by
      have h2 : deliverable [] = false := rfl
      simp only [List.filter_cons, longPath_not_deliverable, h2, List.filter_nil]
      rfl
    obtain ⟨_, _, _, _, _, _, hres⟩ := handoffThenFetch_fits secondaryGuard primaryGuard
      [longPath 1024, []] freshStruct [] rfl rfl rfl (pendingRecords_of_drained freshStruct rfl)
      (by rw [hnone]; decide)
    rw [hres, hnone]
    rfl
  · obtain ⟨g1, s1, k, _, hwith, _, _, hres, _⟩ :=
      handoffThenFetch_written secondaryGuard primaryGuard
        [longPath 600, longPath 600, longPath 1024, aTxt] freshStruct [] rfl rfl rfl
        (pendingRecords_of_drained freshStruct rfl)
    have hidx : (openExternalFilesWith quiescent () secondaryGuard
        [longPath 600, longPath 600, longPath 1024, aTxt] (some freshStruct)).map
          (fun r => r.1.idx) = some 1 := by decide
    rw [hwith] at hidx
    simp only [Option.map_some', Option.some.injEq] at hidx
    subst hidx
    rw [hres]
    have hd : deliverable (longPath 600) = true := by
      refine (deliverable_iff _).2 ⟨fun hnil => ?_, by rw [longPath_length]; omega⟩
      have hlen := congrArg List.length hnil
      rw [longPath_length] at hlen
      exact absurd hlen (by decide)
    have htake : List.take 1 [longPath 600, longPath 600, longPath 1024, aTxt] =
        [longPath 600] := rfl
    rw [htake]
    simp only [List.filter_cons, hd, List.filter_nil, if_true, List.nil_append]
  · intro hmem
    simp only [List.mem_singleton] at hmem
    have := congrArg List.length hmem
    rw [longPath_length] at this
    exact absurd this (by decide)

/-! ## Draining: claims C3, C4, C8 and C9 -/

theorem twoFilesStruct_wellFormed : WellFormed twoFilesStruct :=
  ⟨rfl, [aTxt, bTxt], by decide, by decide, by decide, by decide⟩

/-- Claim C3 as stated fails for a guard that is not online: `fetchFilesToOpen`
returns at once and the cursor keeps its value 5. -/
theorem fetchFilesToOpen_offline_keeps_cursor :
    SingleInstanceGuardPrivate.new.m_online = false ∧
      cursorAfter (fetchFilesToOpen SingleInstanceGuardPrivate.new (some staleStruct)) = some 5 := by
  decide

/-- Claim C3, amended.  For an online (hence attached) guard and any contents
of the bound segment: whenever `fetchFilesToOpen` returns, the cursor of the
shared structure is 0; and it does return on every well-formed structure. -/
theorem fetchFilesToOpen_resets_cursor (g : SingleInstanceGuardPrivate)
    (hon : g.m_online = true) (hatt : g.m_sharedMemory.isAttached = true) :
    (∀ (str : SharedStruct) (r : QStringList × SingleInstanceGuardPrivate × Segment),
        fetchFilesToOpen g (some str) = some r → cursorAfter (some r) = some 0) ∧
      (∀ str : SharedStruct, WellFormed str →
        ∃ r, fetchFilesToOpen g (some str) = some r ∧ cursorAfter (some r) = some 0) := by
  constructor
  · intro str r hr
    simp only [fetchFilesToOpen, hon, Bool.not_true, Bool.false_eq_true, if_false,
      data_attached _ _ hatt] at hr
    cases hsec : fetchFilesSection str with
    | none => rw [hsec] at hr; exact absurd hr (by simp)
    | some fs =>
      rw [hsec] at hr
      obtain ⟨files, s1⟩ := fs
      simp only [Option.some.injEq] at hr
      subst hr
      unfold fetchFilesSection at hsec
      split at hsec
      · split at hsec
        · cases hl : fetchLoop str str.m_filesBufIdx.toNat 0 [] with
          | none => rw [hl] at hsec; exact absurd hsec (by simp)
          | some fl =>
            rw [hl] at hsec
            simp only [Option.some.injEq, Prod.mk.injEq] at hsec
            rw [← hsec.2]
            rfl
        · exact absurd hsec (by simp)
      · exact absurd hsec (by simp)
  · intro str hwf
    obtain ⟨hmagic, recs, hrecs⟩ := hwf
    exact ⟨_, fetchFilesToOpen_records g str recs hon hatt hmagic hrecs, rfl⟩

/-- Claim C3 at a concrete input: the online primary fetches from the structure
that holds the records of `"a.txt"` and `"b.txt"`, and the cursor is 0 after. -/
theorem fetchFilesToOpen_resets_cursor_witness :
    WellFormed twoFilesStruct ∧
      ∃ r, fetchFilesToOpen primaryGuard (some twoFilesStruct) = some r ∧
        cursorAfter (some r) = some 0 :=
  ⟨twoFilesStruct_wellFormed,
    (fetchFilesToOpen_resets_cursor primaryGuard rfl rfl).2 twoFilesStruct
      twoFilesStruct_wellFormed⟩

/-- The method `showInstance` on a bound, initialised segment sets the flag and
changes nothing else. -/
theorem showInstance_bound (g : SingleInstanceGuardPrivate) (str : SharedStruct)
    (hmagic : str.m_magic = c_magic) :
    ∃ g1, showInstance g (some str) = some (g1, some { str with m_askedToShow := true }) := by
  obtain ⟨g1, hg1, hatt, _⟩ := ensureAttached_bound g str
  exact ⟨g1, by simp [showInstance, hg1, data_attached _ _ hatt, hmagic]⟩

/-- Any positive number of `showInstance` calls in a row leaves the flag set. -/
theorem showInstanceTimes_bound (n : Nat) :
    ∀ (g : SingleInstanceGuardPrivate) (str : SharedStruct), str.m_magic = c_magic →
      ∃ g1, showInstanceTimes (n + 1) g (some str) =
        some (g1, some { str with m_askedToShow := true }) := by
  induction n with
  | zero =>
    intro g str hmagic
    obtain ⟨g1, h1⟩ := showInstance_bound g str hmagic
    exact ⟨g1, by simp [showInstanceTimes, h1]⟩
  | succ n ih =>
    intro g str hmagic
    obtain ⟨g1, h1⟩ := showInstance_bound g str hmagic
    obtain ⟨g2, h2⟩ := ih g1 { str with m_askedToShow := true } hmagic
    exact ⟨g2, by rw [showInstanceTimes, h1]; exact h2⟩

/-- Claim C4.  For every state with an online primary, after one or more
`showInstance` calls by another guard and no fetch in between, the primary's
`fetchAskedToShow` returns true, and an immediately repeated call returns
false. -/
theorem fetchAskedToShow_read_and_clear (n : Nat) (hn : 1 ≤ n)
    (secondary primary : SingleInstanceGuardPrivate) (str : SharedStruct)
    (hp : OnlinePrimary primary (some str)) :
    ∃ g1 seg1 seg2, showInstanceTimes n secondary (some str) = some (g1, seg1) ∧
      fetchAskedToShow primary seg1 = some (true, primary, seg2) ∧
      fetchAskedToShow primary seg2 = some (false, primary, seg2) := by
  obtain ⟨hon, hatt, s, hs, hmagic⟩ := hp
  obtain rfl : str = s := Option.some.inj hs
  obtain ⟨m, rfl⟩ : ∃ m, n = m + 1 := ⟨n - 1, by omega⟩
  obtain ⟨g1, h1⟩ := showInstanceTimes_bound m secondary str hmagic
  refine ⟨g1, _, some { str with m_askedToShow := false }, h1, ?_, ?_⟩
  · simp [fetchAskedToShow, hon, data_attached _ _ hatt, hmagic]
  · simp [fetchAskedToShow, hon, data_attached _ _ hatt, hmagic]

/-- The scenario of claim C4: the secondary calls `showInstance` twice before
the primary polls. -/
theorem fetchAskedToShow_read_and_clear_witness :
    ∃ g1 seg1 seg2, showInstanceTimes 2 secondaryGuard (some freshStruct) = some (g1, seg1) ∧
      fetchAskedToShow primaryGuard seg1 = some (true, primaryGuard, seg2) ∧
      fetchAskedToShow primaryGuard seg2 = some (false, primaryGuard, seg2) :=
  fetchAskedToShow_read_and_clear 2 (by decide) secondaryGuard primaryGuard freshStruct
    ⟨rfl, rfl, freshStruct, rfl, rfl⟩

/-- Claim C8.  When the guard is not online, `fetchFilesToOpen` returns the
empty list and `fetchAskedToShow` returns false, and both leave the guard and
the segment, whatever it holds, exactly as they were. -/
theorem offline_fetch_is_noop (g : SingleInstanceGuardPrivate) (seg : Segment)
    (hoff : g.m_online = false) :
    fetchFilesToOpen g seg = some ([], g, seg) ∧
      fetchAskedToShow g seg = some (false, g, seg) := by
  simp [fetchFilesToOpen, fetchAskedToShow, hoff]

/-- Claim C8 at a concrete input: a secondary guard on a structure with five
written entries and a pending raise request. -/
theorem offline_fetch_is_noop_witness :
    secondaryGuard.m_online = false ∧
      fetchFilesToOpen secondaryGuard (some staleStruct) =
        some ([], secondaryGuard, some staleStruct) ∧
      fetchAskedToShow secondaryGuard (some staleStruct) =
        some (false, secondaryGuard, some staleStruct) :=
  ⟨rfl, offline_fetch_is_noop secondaryGuard (some staleStruct) rfl⟩

/-- Claim C9.  For an online primary, `fetchFilesToOpen` on an initialised
shared structure whose cursor is 0 returns the empty list and leaves the
shared structure as it is; and on every well-formed structure a
`fetchFilesToOpen` that immediately follows another one returns the empty list. -/
theorem fetchFilesToOpen_drained (g : SingleInstanceGuardPrivate) (hon : g.m_online = true)
    (hatt : g.m_sharedMemory.isAttached = true) :
    (∀ str : SharedStruct, str.m_magic = c_magic → str.m_filesBufIdx = 0 →
        fetchFilesToOpen g (some str) = some ([], g, some str)) ∧
      (∀ str : SharedStruct, WellFormed str →
        ∃ files seg1, fetchFilesToOpen g (some str) = some (files, g, seg1) ∧
          fetchFilesToOpen g seg1 = some ([], g, seg1)) := by
  have hfirst : ∀ str : SharedStruct, str.m_magic = c_magic → str.m_filesBufIdx = 0 →
      fetchFilesToOpen g (some str) = some ([], g, some str) := by
    intro str hmagic h0
    rw [fetchFilesToOpen_records g str [] hon hatt hmagic (pendingRecords_of_drained str h0)]
    cases str
    simp only at h0
    subst h0
    rfl
  refine ⟨hfirst, ?_⟩
  intro str hwf
  obtain ⟨hmagic, recs, hrecs⟩ := hwf
  exact ⟨recs, some { str with m_filesBufIdx := 0 },
    fetchFilesToOpen_records g str recs hon hatt hmagic hrecs, hfirst _ hmagic rfl⟩

/-- The scenario of claim C9: the primary fetches from the structure that holds
`"a.txt"` and `"b.txt"`, and its second fetch returns the empty list; on the
fresh structure the first fetch already does. -/
theorem fetchFilesToOpen_drained_witness :
    fetchFilesToOpen primaryGuard (some freshStruct) =
        some ([], primaryGuard, some freshStruct) ∧
      ∃ files seg1,
        fetchFilesToOpen primaryGuard (some twoFilesStruct) = some (files, primaryGuard, seg1) ∧
        fetchFilesToOpen primaryGuard seg1 = some ([], primaryGuard, seg1) :=
  ⟨(fetchFilesToOpen_drained primaryGuard rfl rfl).1 freshStruct rfl rfl,
    (fetchFilesToOpen_drained primaryGuard rfl rfl).2 twoFilesStruct twoFilesStruct_wellFormed⟩

/-! ## The retry budget and bursts: claims C10 and C5 -/

/-- The number of rounds never exceeds the budget, whatever the other processes
do during the waits. -/
theorem openLoop_rounds_le {ε : Type} (wait : Wait ε) (files : QStringList) :
    ∀ (t : Nat) (p q : Progress ε) (str s1 : SharedStruct),
      openLoop wait files t p str = some (q, s1) → q.rounds ≤ p.rounds + t := by
  intro t
  induction t with
  | zero =>
    intro p q str s1 h
    simp only [openLoop, Option.some.injEq, Prod.mk.injEq] at h
    rw [← h.1]
    omega
  | succ t ih =>
    intro p q str s1 h
    rw [openLoop] at h
    cases hr : openRound files p.idx str with
    | none => rw [hr] at h; exact absurd h (by simp)
    | some r =>
      obtain ⟨idx1, str1⟩ := r
      rw [hr] at h
      simp only at h
      split at h
      · cases hw : wait p.env str1 with
        | none => rw [hw] at h; exact absurd h (by simp)
        | some w =>
          obtain ⟨e1, str2⟩ := w
          rw [hw] at h
          have := ih _ _ _ _ h
          simp only at this
          omega
      · simp only [Option.some.injEq, Prod.mk.injEq] at h
        rw [← h.1]
        simp only
        omega

/-- Claim C10.  For every input list and every initialised shared structure
whose cursor is not negative, `openExternalFiles` returns after at most 100
rounds even if nobody drains.  It stops at an index `idx`: the deliverable files
before `idx` have been appended at the old cursor, in order, and nothing else
has changed, so what was written is an initial part of the deliverable files of
the input and the files from `idx` on are dropped.  When `idx` is not the end of
the list, all 100 rounds were used and the file at `idx` is a deliverable one
that does not fit in the space left.  The bound of 100 rounds holds whatever
the other processes do during the waits, and on an unbound segment the call
returns at once. -/
theorem openExternalFiles_bounded (g : SingleInstanceGuardPrivate) (files : QStringList)
    (str : SharedStruct) (hmagic : str.m_magic = c_magic) (h0 : 0 ≤ str.m_filesBufIdx) :
    (∃ p g1 s1, openExternalFilesWith quiescent () g files (some str) = some (p, g1, some s1) ∧
      p.rounds ≤ 100 ∧ p.idx ≤ files.length ∧
      Appended str s1 str.m_filesBufIdx.toNat ((files.take p.idx).filter deliverable) ∧
      files.filter deliverable =
        (files.take p.idx).filter deliverable ++ (files.drop p.idx).filter deliverable ∧
      (p.idx < files.length → p.rounds = 100 ∧ ∃ f, files[p.idx]? = some f ∧
        deliverable f = true ∧ (f.length : Int) + 1 > FilesBufCount - s1.m_filesBufIdx)) ∧
    (∀ (ε : Type) (wait : Wait ε) (e : ε) (seg : Segment)
        (r : Progress ε × SingleInstanceGuardPrivate × Segment),
        openExternalFilesWith wait e g files seg = some r → r.1.rounds ≤ 100) ∧
    (g.m_sharedMemory.isAttached = false →
      openExternalFilesWith quiescent () g files none =
        some ({ idx := 0, rounds := 0, env := () }, g, none)) := by
  refine ⟨?_, ?_, ?_⟩
  · obtain ⟨p, g1, s1, hopen, hr, hk, hA, _, hstuck⟩ :=
      openExternalFilesWith_quiescent g files str str.m_filesBufIdx.toNat hmagic (by omega)
    exact ⟨p, g1, s1, hopen, hr, hk, hA,
      by rw [← List.filter_append, List.take_append_drop], hstuck⟩
  · intro ε wait e seg r h
    unfold openExternalFilesWith at h
    split at h
    · simp only [Option.some.injEq] at h
      rw [← h]
      simp
    · split at h
      · simp only [Option.some.injEq] at h
        rw [← h]
        simp
      · split at h
        · exact absurd h (by simp)
        · split at h
          · exact absurd h (by simp)
          · rename_i hl
            simp only [Option.some.injEq] at h
            rw [← h]
            have := openLoop_rounds_le wait files _ _ _ _ _ hl
            simpa using this
  · intro hatt
    cases files with
    | nil => rfl
    | cons f rest =>
      simp [openExternalFilesWith, ensureAttached, hatt, QSharedMemory.attach]

set_option maxRecDepth 100000 in
/-- Claim C10 at a concrete input: two paths of 600 code units and `"a.txt"` on
a fresh structure.  Only the first path fits: the call uses its 100 rounds and
stops at index 1, so `"a.txt"`, which would fit, is dropped as well. -/
theorem openExternalFiles_bounded_witness :
    (openExternalFilesWith quiescent () secondaryGuard [longPath 600, longPath 600, aTxt]
        (some freshStruct)).map (fun r => (r.1.idx, r.1.rounds)) = some (1, 100) ∧
    ∃ p g1 s1, openExternalFilesWith quiescent () secondaryGuard
        [longPath 600, longPath 600, aTxt] (some freshStruct) = some (p, g1, some s1) ∧
      p.rounds ≤ 100 ∧ p.idx ≤ [longPath 600, longPath 600, aTxt].length ∧
      Appended freshStruct s1 freshStruct.m_filesBufIdx.toNat
        (([longPath 600, longPath 600, aTxt].take p.idx).filter deliverable) ∧
      [longPath 600, longPath 600, aTxt].filter deliverable =
        ([longPath 600, longPath 600, aTxt].take p.idx).filter deliverable ++
          ([longPath 600, longPath 600, aTxt].drop p.idx).filter deliverable ∧
      (p.idx < [longPath 600, longPath 600, aTxt].length → p.rounds = 100 ∧
        ∃ f, [longPath 600, longPath 600, aTxt][p.idx]? = some f ∧
          deliverable f = true ∧ (f.length : Int) + 1 > FilesBufCount - s1.m_filesBufIdx) :=
  ⟨by decide,
    (openExternalFiles_bounded secondaryGuard [longPath 600, longPath 600, aTxt] freshStruct
      rfl (by decide)).1⟩

theorem Host.inv_init : Host.Inv Host.init := by
  simp [Host.Inv, Host.init, Proc.creator, SingleInstanceGuardPrivate.new, TryRunPc.isPrimary]

theorem Host.inv_step (junk : SharedStruct) (h : Host) (who : Bool) (hinv : h.Inv) :
    (h.step junk who).Inv := by
  obtain ⟨seg, ⟨pc1, g1⟩, ⟨pc2, g2⟩⟩ := h
  obtain ⟨h1, h2, h3, h4, h5, h6⟩ := hinv
  cases who <;> cases seg <;> cases pc1 <;> cases pc2 <;>
    simp_all [Host.Inv, Host.step, Proc.step, Proc.creator, QSharedMemory.attach,
      QSharedMemory.create, TryRunPc.isPrimary]

theorem Host.inv_run (junk : SharedStruct) (schedule : List Bool) :
    ∀ h : Host, h.Inv → (h.run junk schedule).Inv := by
  induction schedule with
  | nil => intro h hinv; exact hinv
  | cons who rest ih =>
    intro h hinv
    exact ih (h.step junk who) (Host.inv_step junk h who hinv)

/-- A step of a process that has not returned takes it further inside `tryRun`. -/
theorem Proc.rank_step (junk : SharedStruct) (p : Proc) (seg : Segment) :
    min 4 (p.pc.rank + 1) ≤ (p.step junk seg).1.pc.rank := by
  obtain ⟨pc, g⟩ := p
  cases pc <;> cases seg <;>
    simp [Proc.step, TryRunPc.rank, QSharedMemory.attach, QSharedMemory.create]

theorem Host.rank_run (junk : SharedStruct) (schedule : List Bool) :
    ∀ h : Host,
      min 4 (h.p1.pc.rank + schedule.count false) ≤ (h.run junk schedule).p1.pc.rank ∧
      min 4 (h.p2.pc.rank + schedule.count true) ≤ (h.run junk schedule).p2.pc.rank := by
  induction schedule with
  | nil => intro h; simp [Host.run]
  | cons who rest ih =>
    intro h
    have hstep := ih (h.step junk who)
    have hrun : h.run junk (who :: rest) = (h.step junk who).run junk rest := rfl
    rw [hrun]
    cases who
    · have h1 : (h.step junk false).p1 = (h.p1.step junk h.seg).1 := rfl
      have h2 : (h.step junk false).p2 = h.p2 := rfl
      have h3 := Proc.rank_step junk h.p1 h.seg
      rw [h1, h2] at hstep
      simp only [List.count_cons_self, List.count_cons_of_ne (by decide : true ≠ false)]
      omega
    · have h1 : (h.step junk true).p2 = (h.p2.step junk h.seg).1 := rfl
      have h2 : (h.step junk true).p1 = h.p1 := rfl
      have h3 := Proc.rank_step junk h.p2 h.seg
      rw [h1, h2] at hstep
      simp only [List.count_cons_self, List.count_cons_of_ne (by decide : false ≠ true)]
      omega

theorem TryRunPc.returned_of_rank (pc : TryRunPc) (h : 4 ≤ pc.rank) : ∃ r, pc = .returned r := by
  cases pc <;> simp [TryRunPc.rank] at h ⊢

theorem Proc.creator_of_isPrimary (p : Proc) (h : p.pc.isPrimary = true) : p.creator = true := by
  obtain ⟨pc, g⟩ := p
  cases pc with
  | returned r => cases r <;> simp_all [TryRunPc.isPrimary, Proc.creator]
  | _ => simp_all [TryRunPc.isPrimary, Proc.creator]

/-- Claim C6.  Two processes with new guards call `tryRun` on the same name,
starting from no segment, their atomic steps (attach, create, locked
initialisation, going online) interleaved by an arbitrary schedule.  In every
reachable state at most one guard is online; once both calls have returned,
exactly one returned true and the other false; the flag `m_online` of a guard
that returned equals the value returned; and a process that was scheduled four
times has returned. -/
theorem single_instance_guarantee (junk : SharedStruct) (schedule : List Bool) :
    ¬ ((Host.init.run junk schedule).p1.guard.m_online = true ∧
        (Host.init.run junk schedule).p2.guard.m_online = true) ∧
      (∀ r1 r2, (Host.init.run junk schedule).p1.pc = .returned r1 →
        (Host.init.run junk schedule).p2.pc = .returned r2 →
        (r1 = true ∧ r2 = false) ∨ (r1 = false ∧ r2 = true)) ∧
      (∀ r, (Host.init.run junk schedule).p1.pc = .returned r →
        (Host.init.run junk schedule).p1.guard.m_online = r) ∧
      (∀ r, (Host.init.run junk schedule).p2.pc = .returned r →
        (Host.init.run junk schedule).p2.guard.m_online = r) ∧
      (4 ≤ schedule.count false → ∃ r, (Host.init.run junk schedule).p1.pc = .returned r) ∧
      (4 ≤ schedule.count true → ∃ r, (Host.init.run junk schedule).p2.pc = .returned r) := by
  have hinv := Host.inv_run junk schedule Host.init Host.inv_init
  have hrank := Host.rank_run junk schedule Host.init
  have hz1 : Host.init.p1.pc.rank = 0 := rfl
  have hz2 : Host.init.p2.pc.rank = 0 := rfl
  rw [hz1, hz2] at hrank
  generalize Host.init.run junk schedule = h at hinv hrank
  obtain ⟨ha, hb, ho1, ho2, hs1, hs2⟩ := hinv
  refine ⟨?_, ?_, ?_, ?_, ?_, ?_⟩
  · rintro ⟨e1, e2⟩
    have c1 := Proc.creator_of_isPrimary h.p1 (ho1 ▸ e1)
    have c2 := Proc.creator_of_isPrimary h.p2 (ho2 ▸ e2)
    rw [c1, c2] at hb
    exact absurd hb (by decide)
  · intro r1 r2 e1 e2
    cases r1 <;> cases r2
    · have hsome := hs1 e1
      rw [ha] at hsome
      simp [Proc.creator, e1, e2] at hsome
    · exact Or.inr ⟨rfl, rfl⟩
    · exact Or.inl ⟨rfl, rfl⟩
    · simp [Proc.creator, e1, e2] at hb
  · intro r e
    rw [ho1, e]
    cases r <;> rfl
  · intro r e
    rw [ho2, e]
    cases r <;> rfl
  · intro hc
    exact TryRunPc.returned_of_rank _ (by have := hrank.1; omega)
  · intro hc
    exact TryRunPc.returned_of_rank _ (by have := hrank.2; omega)

/-- Claim C7.  With `attach failed` and `create succeeded` read off the two
library calls that `tryRun` makes: `tryRun` returns true exactly when attach
failed and create succeeded; on return the flag `m_online` equals the value
returned; when it returns true the segment holds a structure with
`m_magic = 19910925`, `m_filesBufIdx = 0` and `m_askedToShow = false`; when
attach succeeds, or attach fails and create fails, it returns false and the
segment is as the other processes left it. -/
theorem tryRun_postcondition (race : Segment → Segment) (junk : SharedStruct)
    (g : SingleInstanceGuardPrivate) (seg : Segment) :
    ((tryRunWith race junk g seg).1 = true ↔
        (g.m_sharedMemory.attach seg).1 = false ∧
          ((g.m_sharedMemory.attach seg).2.create junk (race seg)).1 = true) ∧
      (tryRunWith race junk g seg).2.1.m_online = (tryRunWith race junk g seg).1 ∧
      ((tryRunWith race junk g seg).1 = true →
        ∃ str, (tryRunWith race junk g seg).2.2 = some str ∧ str.m_magic = 19910925 ∧
          str.m_filesBufIdx = 0 ∧ str.m_askedToShow = false) ∧
      ((g.m_sharedMemory.attach seg).1 = true →
        (tryRunWith race junk g seg).1 = false ∧ (tryRunWith race junk g seg).2.2 = seg) ∧
      ((g.m_sharedMemory.attach seg).1 = false →
        ((g.m_sharedMemory.attach seg).2.create junk (race seg)).1 = false →
        (tryRunWith race junk g seg).1 = false ∧
          (tryRunWith race junk g seg).2.2 = race seg) := by
  cases seg <;> cases hr : race none <;>
    simp [tryRunWith, QSharedMemory.attach, QSharedMemory.create, hr, tryRunInit, c_magic]

/-- Claim C6 at a concrete schedule: both processes attach before either
creates; the first one creates and becomes the primary, the create of the
second one fails. -/
theorem single_instance_guarantee_witness :
    (Host.init.run zeroStruct [false, true, false, true, false, false]).p1.pc = .returned true ∧
      (Host.init.run zeroStruct [false, true, false, true, false, false]).p2.pc =
        .returned false ∧
      ¬ ((Host.init.run zeroStruct [false, true, false, true, false, false]).p1.guard.m_online
            = true ∧
          (Host.init.run zeroStruct [false, true, false, true, false, false]).p2.guard.m_online
            = true) :=
  ⟨by decide, by decide,
    (single_instance_guarantee zeroStruct [false, true, false, true, false, false]).1⟩

/-- Claim C7 at concrete inputs: alone on an unbound name `tryRun` returns true;
it returns false when another process creates the segment between its attach
and its create, and when the segment is bound from the start. -/
theorem tryRun_postcondition_witness :
    (tryRun zeroStruct SingleInstanceGuardPrivate.new none).1 = true ∧
      (tryRunWith (fun _ => some freshStruct) zeroStruct SingleInstanceGuardPrivate.new none).1
        = false ∧
      (tryRun zeroStruct SingleInstanceGuardPrivate.new (some freshStruct)).1 = false :=
  ⟨(tryRun_postcondition id zeroStruct SingleInstanceGuardPrivate.new none).1.2 ⟨rfl, rfl⟩,
    ((tryRun_postcondition (fun _ => some freshStruct) zeroStruct
      SingleInstanceGuardPrivate.new none).2.2.2.2 rfl rfl).1,
    ((tryRun_postcondition id zeroStruct SingleInstanceGuardPrivate.new
      (some freshStruct)).2.2.2.1 rfl).1⟩

/-! ## Shutdown: claim C11 -/

/-- Claim C11.  If the guard is online (and so attached), `exit` detaches its
handle from the segment and sets `m_online = false`; if the guard is not online,
`exit` changes nothing.  Hence a second `exit` changes nothing, and after an
`exit` that returned `fetchFilesToOpen` returns the empty list and
`fetchAskedToShow` returns false, both without touching the segment, whatever
requests are pending in it. -/
theorem exit_postcondition (destroyed again : Bool) (g : SingleInstanceGuardPrivate)
    (seg : Segment) :
    (g.m_online = false → exit destroyed g seg = some (g, seg)) ∧
      (g.m_online = true → g.m_sharedMemory.isAttached = true →
        exit destroyed g seg =
          some ({ m_online := false, m_sharedMemory := { isAttached := false } },
            if destroyed then none else seg)) ∧
      (∀ g1 seg1, exit destroyed g seg = some (g1, seg1) →
        g1.m_online = false ∧ exit again g1 seg1 = some (g1, seg1) ∧
          fetchFilesToOpen g1 seg1 = some ([], g1, seg1) ∧
          fetchAskedToShow g1 seg1 = some (false, g1, seg1)) := by
  refine ⟨?_, ?_, ?_⟩
  · intro hoff
    simp [exit, hoff]
  · intro hon hatt
    simp [exit, hon, hatt, QSharedMemory.detach]
  · intro g1 seg1 h
    have hoff : g1.m_online = false := by
      unfold exit at h
      split at h
      · rename_i hnot
        simp only [Option.some.injEq, Prod.mk.injEq] at h
        rw [← h.1]
        simpa using hnot
      · split at h
        · simp only [QSharedMemory.detach, Option.some.injEq, Prod.mk.injEq] at h
          rw [← h.1]
        · exact absurd h (by simp)
    refine ⟨hoff, by simp [exit, hoff], ?_⟩
    simp [fetchFilesToOpen, fetchAskedToShow, hoff]

/-- Claim C11 at a concrete input: the primary exits while two files and a raise
request are pending and the segment stays bound; it is then offline and
detached, its second `exit` changes nothing, and its fetches return nothing
and leave the pending requests in the segment. -/
theorem exit_postcondition_witness :
    exit false primaryGuard (some busyStruct) =
        some (SingleInstanceGuardPrivate.new, some busyStruct) ∧
      exit false SingleInstanceGuardPrivate.new (some busyStruct) =
        some (SingleInstanceGuardPrivate.new, some busyStruct) ∧
      fetchFilesToOpen SingleInstanceGuardPrivate.new (some busyStruct) =
        some ([], SingleInstanceGuardPrivate.new, some busyStruct) ∧
      fetchAskedToShow SingleInstanceGuardPrivate.new (some busyStruct) =
        some (false, SingleInstanceGuardPrivate.new, some busyStruct) :=
  ⟨(exit_postcondition false false primaryGuard (some busyStruct)).2.1 rfl rfl,
    ((exit_postcondition false false primaryGuard (some busyStruct)).2.2
      SingleInstanceGuardPrivate.new (some busyStruct)
      ((exit_postcondition false false primaryGuard (some busyStruct)).2.1 rfl rfl)).2⟩

/-! ## What a writer can change: lemmas for claims C12, C13, C15 and C19 -/

theorem Extends.reflexive (str : SharedStruct) : Extends str str :=
  ⟨le_refl _, le_max_left _ _, rfl, rfl, fun _ _ => rfl⟩

theorem Extends.transitive {a b c : SharedStruct} (h1 : Extends a b) (h2 : Extends b c) :
    Extends a c := by
  obtain ⟨l1, u1, m1, k1, f1⟩ := h1
  obtain ⟨l2, u2, m2, k2, f2⟩ := h2
  refine ⟨le_trans l1 l2, ?_, m2.trans m1, k2.trans k1, ?_⟩
  · rcases le_max_iff.1 u2 with h | h
    · exact le_trans h u1
    · exact le_trans h (le_max_right _ _)
  · intro j hj
    rw [f2 j (by omega), f1 j hj]

theorem Extends.cursorInBounds {str s1 : SharedStruct} (h : Extends str s1)
    (hb : CursorInBounds str) : CursorInBounds s1 := by
  obtain ⟨l, u, _, _, _⟩ := h
  obtain ⟨h0, h1⟩ := hb
  refine ⟨by omega, ?_⟩
  rw [max_eq_right h1] at u
  exact u

theorem writeBuf_some (str s1 : SharedStruct) (i : Int) (v : ushort)
    (h : writeBuf str i v = some s1) :
    0 ≤ i ∧ i < FilesBufCount ∧
      s1 = { str with m_filesBuf := Function.update str.m_filesBuf i.toNat v } := by
  unfold writeBuf at h
  split at h
  · rename_i hin
    simp only [Option.some.injEq] at h
    exact ⟨hin.1, hin.2, h.symm⟩
  · exact absurd h (by simp)

/-- Whenever the writing loop returns, it has advanced the cursor by the number
of code units and has touched no entry below the old cursor or past the array. -/
theorem writeChars_extends (cs : List QChar) :
    ∀ (str s1 : SharedStruct), writeChars str cs = some s1 →
      s1.m_filesBufIdx = str.m_filesBufIdx + cs.length ∧
      (cs ≠ [] → s1.m_filesBufIdx ≤ FilesBufCount) ∧
      s1.m_magic = str.m_magic ∧ s1.m_askedToShow = str.m_askedToShow ∧
      ∀ j : Nat, (j : Int) < str.m_filesBufIdx ∨ FilesBufCount ≤ (j : Int) →
        s1.m_filesBuf j = str.m_filesBuf j := by
  induction cs with
  | nil =>
    intro str s1 h
    simp only [writeChars, Option.some.injEq] at h
    subst h
    exact ⟨by simp, fun hne => absurd rfl hne, rfl, rfl, fun _ _ => rfl⟩
  | cons x xs ih =>
    intro str s1 h
    rw [writeChars] at h
    cases hw : writeBuf str str.m_filesBufIdx x with
    | none => rw [hw] at h; exact absurd h (by simp)
    | some s2 =>
      rw [hw] at h
      obtain ⟨h0, h1, rfl⟩ := writeBuf_some _ _ _ _ hw
      obtain ⟨hidx, hub, hmag, hask, hframe⟩ := ih _ _ h
      simp only at hidx hub hmag hask hframe
      refine ⟨?_, ?_, hmag, hask, ?_⟩
      · rw [hidx, List.length_cons]; push_cast; omega
      · intro _
        by_cases hxs : xs = []
        · subst hxs
          rw [hidx]
          simp only [List.length_nil, Nat.cast_zero, add_zero]
          omega
        · exact hub hxs
      · intro j hj
        rw [hframe j (by omega)]
        apply Function.update_noteq
        omega

/-- Whenever `appendFileToBuffer` returns, it has only appended; a refusal
leaves the structure as it was. -/
theorem appendFileToBuffer_extends (str s1 : SharedStruct) (p : QString) (b : Bool)
    (h : appendFileToBuffer str p = some (b, s1)) :
    Extends str s1 ∧ (b = false → s1 = str) ∧
      (b = true → p ≠ [] → s1.m_filesBufIdx = str.m_filesBufIdx + (p.length + 1)) := by
  unfold appendFileToBuffer at h
  split at h
  · simp only [Option.some.injEq, Prod.mk.injEq] at h
    obtain ⟨hb, rfl⟩ := h
    rename_i hemp
    refine ⟨Extends.reflexive _, fun _ => rfl, fun _ hne => ?_⟩
    exact absurd (List.isEmpty_iff.1 hemp) hne
  · simp only at h
    split at h
    · simp only [Option.some.injEq, Prod.mk.injEq] at h
      obtain ⟨hb, rfl⟩ := h
      exact ⟨Extends.reflexive _, fun _ => rfl, fun hbt => absurd (hb.trans hbt) (by decide)⟩
    · rename_i hempty hfits
      cases hw : writeBuf str str.m_filesBufIdx (toUshort p.length) with
      | none => rw [hw] at h; exact absurd h (by simp)
      | some s2 =>
        rw [hw] at h
        simp only at h
        obtain ⟨h0, h1, rfl⟩ := writeBuf_some _ _ _ _ hw
        cases hc : writeChars
            { m_magic := str.m_magic, m_filesBufIdx := str.m_filesBufIdx + 1,
              m_filesBuf := Function.update str.m_filesBuf str.m_filesBufIdx.toNat
                (toUshort p.length),
              m_askedToShow := str.m_askedToShow } p with
        | none => rw [hc] at h; exact absurd h (by simp)
        | some s3 =>
          rw [hc] at h
          simp only [Option.some.injEq, Prod.mk.injEq] at h
          obtain ⟨hb, rfl⟩ := h
          obtain ⟨hidx, _, hmag, hask, hframe⟩ := writeChars_extends p _ _ hc
          simp only at hidx hmag hask hframe
          have hfits2 : (p.length : Int) + 1 ≤ FilesBufCount - str.m_filesBufIdx := by omega
          refine ⟨⟨by omega, ?_, hmag, hask, ?_⟩,
            fun hbf => absurd (hb.trans hbf) (by decide), fun _ _ => by rw [hidx]; omega⟩
          · exact le_trans (by omega) (le_max_right _ _)
          · intro j hj
            rw [hframe j (by omega)]
            apply Function.update_noteq
            omega

/-- Whenever the inner loop of a round returns, it has only appended. -/
theorem appendRound_extends (files : QStringList) :
    ∀ (str s1 : SharedStruct) (idx k : Nat), appendRound str files idx = some (k, s1) →
      Extends str s1 := by
  induction files with
  | nil =>
    intro str s1 idx k h
    simp only [appendRound, Option.some.injEq, Prod.mk.injEq] at h
    rw [← h.2]
    exact Extends.reflexive _
  | cons f rest ih =>
    intro str s1 idx k h
    rw [appendRound] at h
    split at h
    · exact ih _ _ _ _ h
    · cases ha : appendFileToBuffer str f with
      | none => rw [ha] at h; exact absurd h (by simp)
      | some r =>
        obtain ⟨b, s2⟩ := r
        rw [ha] at h
        have he := (appendFileToBuffer_extends str s2 f b ha).1
        cases b
        · simp only [Option.some.injEq, Prod.mk.injEq] at h
          rw [← h.2]
          exact he
        · exact he.transitive (ih _ _ _ _ h)

/-- Whenever the retry loop returns, it has only appended, provided the other
processes only append during the waits. -/
theorem openLoop_extends {ε : Type} (wait : Wait ε) (files : QStringList)
    (hwait : ∀ e str e1 s1, wait e str = some (e1, s1) → Extends str s1) :
    ∀ (t : Nat) (p q : Progress ε) (str s1 : SharedStruct),
      openLoop wait files t p str = some (q, s1) → Extends str s1 := by
  intro t
  induction t with
  | zero =>
    intro p q str s1 h
    simp only [openLoop, Option.some.injEq, Prod.mk.injEq] at h
    rw [← h.2]
    exact Extends.reflexive _
  | succ t ih =>
    intro p q str s1 h
    rw [openLoop] at h
    cases hr : openRound files p.idx str with
    | none => rw [hr] at h; exact absurd h (by simp)
    | some r =>
      obtain ⟨idx1, str1⟩ := r
      rw [hr] at h
      simp only at h
      have h1 : Extends str str1 := by
        unfold openRound at hr
        split at hr
        · exact appendRound_extends _ _ _ _ _ hr
        · exact absurd hr (by simp)
      split at h
      · cases hw : wait p.env str1 with
        | none => rw [hw] at h; exact absurd h (by simp)
        | some w =>
          obtain ⟨e1, str2⟩ := w
          rw [hw] at h
          exact h1.transitive ((hwait _ _ _ _ hw).transitive (ih _ _ _ _ h))
      · simp only [Option.some.injEq, Prod.mk.injEq] at h
        rw [← h.2]
        exact h1

/-- Whenever `openExternalFiles` returns, the segment is bound after the call
exactly if it was before, and its structure has only been appended to. -/
theorem openExternalFiles_extends (g g1 : SingleInstanceGuardPrivate) (files : QStringList)
    (seg seg1 : Segment) (h : openExternalFiles g files seg = some (g1, seg1)) :
    SegmentRel Extends seg seg1 := by
  have hrefl : SegmentRel Extends seg seg := by
    cases seg with
    | none => trivial
    | some str => exact Extends.reflexive str
  unfold openExternalFiles at h
  cases ho : openExternalFilesWith quiescent () g files seg with
  | none => rw [ho] at h; exact absurd h (by simp)
  | some r =>
    obtain ⟨p, g2, seg2⟩ := r
    rw [ho] at h
    simp only [Option.some.injEq, Prod.mk.injEq] at h
    obtain ⟨_, rfl⟩ := h
    unfold openExternalFilesWith at ho
    split at ho
    · simp only [Option.some.injEq, Prod.mk.injEq] at ho
      rw [← ho.2.2]
      exact hrefl
    · split at ho
      · simp only [Option.some.injEq, Prod.mk.injEq] at ho
        rw [← ho.2.2]
        exact hrefl
      · rename_i g3 _
        cases hd : g3.m_sharedMemory.data seg with
        | none => rw [hd] at ho; exact absurd ho (by simp)
        | some str =>
          rw [hd] at ho
          simp only at ho
          have hseg : seg = some str := by
            unfold QSharedMemory.data at hd
            split at hd
            · exact hd
            · exact absurd hd (by simp)
          cases hl : openLoop quiescent files 100 { idx := 0, rounds := 0, env := () } str with
          | none => rw [hl] at ho; exact absurd ho (by simp)
          | some q =>
            obtain ⟨q1, s1⟩ := q
            rw [hl] at ho
            simp only [Option.some.injEq, Prod.mk.injEq] at ho
            rw [← ho.2.2, hseg]
            exact openLoop_extends quiescent files
              (fun e s e1 s1 hq => by
                simp only [quiescent, Option.some.injEq, Prod.mk.injEq] at hq
                rw [← hq.2]
                exact Extends.reflexive _) _ _ _ _ _ hl

theorem SegmentRel.of_refl {R : SharedStruct → SharedStruct → Prop} (hR : ∀ str, R str str)
    (seg : Segment) : SegmentRel R seg seg := by
  cases seg with
  | none => trivial
  | some str => exact hR str

theorem SegmentRel.mono {R S : SharedStruct → SharedStruct → Prop}
    (hRS : ∀ a b, R a b → S a b) {seg seg1 : Segment} (h : SegmentRel R seg seg1) :
    SegmentRel S seg seg1 := by
  cases seg <;> cases seg1 <;> simp_all [SegmentRel]

theorem data_some (m : QSharedMemory) (seg : Segment) (str : SharedStruct)
    (h : m.data seg = some str) : seg = some str := by
  unfold QSharedMemory.data at h
  split at h
  · exact h
  · exact absurd h (by simp)

/-- Whenever `showInstance` returns, it has changed at most the raise request. -/
theorem showInstance_rel (g g1 : SingleInstanceGuardPrivate) (seg seg1 : Segment)
    (h : showInstance g seg = some (g1, seg1)) : SegmentRel SameButAsked seg seg1 := by
  unfold showInstance at h
  split at h
  · simp only [Option.some.injEq, Prod.mk.injEq] at h
    rw [← h.2]
    exact SegmentRel.of_refl (fun _ => ⟨rfl, rfl, rfl⟩) seg
  · rename_i g2 _
    cases hd : g2.m_sharedMemory.data seg with
    | none => rw [hd] at h; exact absurd h (by simp)
    | some str =>
      rw [hd] at h
      simp only at h
      split at h
      · simp only [Option.some.injEq, Prod.mk.injEq] at h
        rw [← h.2, data_some _ _ _ hd]
        exact ⟨rfl, rfl, rfl⟩
      · exact absurd h (by simp)

/-- Whenever `fetchAskedToShow` returns, it has changed at most the raise
request. -/
theorem fetchAskedToShow_rel (g g1 : SingleInstanceGuardPrivate) (seg seg1 : Segment)
    (b : Bool) (h : fetchAskedToShow g seg = some (b, g1, seg1)) :
    SegmentRel SameButAsked seg seg1 := by
  unfold fetchAskedToShow at h
  split at h
  · simp only [Option.some.injEq, Prod.mk.injEq] at h
    rw [← h.2.2]
    exact SegmentRel.of_refl (fun _ => ⟨rfl, rfl, rfl⟩) seg
  · cases hd : g.m_sharedMemory.data seg with
    | none => rw [hd] at h; exact absurd h (by simp)
    | some str =>
      rw [hd] at h
      simp only at h
      split at h
      · simp only [Option.some.injEq, Prod.mk.injEq] at h
        rw [← h.2.2, data_some _ _ _ hd]
        exact ⟨rfl, rfl, rfl⟩
      · exact absurd h (by simp)

/-- Whenever `fetchFilesToOpen` returns, it has changed at most the cursor, which
it has left alone or reset to 0. -/
theorem fetchFilesToOpen_rel (g g1 : SingleInstanceGuardPrivate) (seg seg1 : Segment)
    (files : QStringList) (h : fetchFilesToOpen g seg = some (files, g1, seg1)) :
    SegmentRel SameButCursor seg seg1 := by
  unfold fetchFilesToOpen at h
  split at h
  · simp only [Option.some.injEq, Prod.mk.injEq] at h
    rw [← h.2.2]
    exact SegmentRel.of_refl (fun _ => ⟨rfl, rfl, rfl, Or.inl rfl⟩) seg
  · cases hd : g.m_sharedMemory.data seg with
    | none => rw [hd] at h; exact absurd h (by simp)
    | some str =>
      rw [hd] at h
      simp only at h
      cases hs : fetchFilesSection str with
      | none => rw [hs] at h; exact absurd h (by simp)
      | some r =>
        obtain ⟨fl, s1⟩ := r
        rw [hs] at h
        simp only [Option.some.injEq, Prod.mk.injEq] at h
        rw [← h.2.2, data_some _ _ _ hd]
        unfold fetchFilesSection at hs
        split at hs
        · split at hs
          · cases hl : fetchLoop str str.m_filesBufIdx.toNat 0 [] with
            | none => rw [hl] at hs; exact absurd hs (by simp)
            | some fl2 =>
              rw [hl] at hs
              simp only [Option.some.injEq, Prod.mk.injEq] at hs
              rw [← hs.2]
              exact ⟨rfl, rfl, rfl, Or.inr rfl⟩
          · exact absurd hs (by simp)
        · exact absurd hs (by simp)

/-- On a structure whose cursor is not negative `appendFileToBuffer` returns:
none of its writes falls outside the array. -/
theorem appendFileToBuffer_returns (str : SharedStruct) (p : QString)
    (h0 : 0 ≤ str.m_filesBufIdx) : ∃ b s1, appendFileToBuffer str p = some (b, s1) := by
  by_cases hne : p = []
  · subst hne
    exact ⟨true, str, rfl⟩
  · by_cases hfull : (p.length : Int) + 1 > FilesBufCount - str.m_filesBufIdx
    · exact ⟨false, str, appendFileToBuffer_refused str p hne hfull⟩
    · obtain ⟨s1, h1, _⟩ := appendFileToBuffer_written str p str.m_filesBufIdx.toNat
        (by omega) hne (by unfold FilesBufCount at hfull; omega)
      exact ⟨true, s1, h1⟩

/-! ## Helper lemmas on `tryRun`, `exit`, `showInstance` and `openExternalFiles` -/

/-- When `tryRun` returns true the segment holds an initialised structure with
an empty buffer and no raise request. -/
theorem tryRunWith_true (race : Segment → Segment) (junk : SharedStruct)
    (g : SingleInstanceGuardPrivate) (seg : Segment)
    (h : (tryRunWith race junk g seg).1 = true) :
    (tryRunWith race junk g seg).2.1.m_online = true ∧
      (tryRunWith race junk g seg).2.1.m_sharedMemory.isAttached = true ∧
      ∃ str, (tryRunWith race junk g seg).2.2 = some str ∧ str.m_magic = c_magic ∧
        str.m_filesBufIdx = 0 ∧ str.m_askedToShow = false := by
  cases seg <;> cases hr : race none <;>
    simp_all [tryRunWith, QSharedMemory.attach, QSharedMemory.create, tryRunInit]

/-- The method `exit` of an online, attached guard. -/
theorem exit_online (destroyed : Bool) (g : SingleInstanceGuardPrivate) (seg : Segment)
    (hon : g.m_online = true) (hatt : g.m_sharedMemory.isAttached = true) :
    exit destroyed g seg =
      some ({ m_online := false, m_sharedMemory := { isAttached := false } },
        if destroyed then none else seg) := by
  simp [exit, hon, hatt, QSharedMemory.detach]

/-- On a bound, initialised segment `showInstance` returns and leaves the cursor
and the buffer as they were. -/
theorem showInstance_returns (g : SingleInstanceGuardPrivate) (str : SharedStruct)
    (hmagic : str.m_magic = c_magic) :
    ∃ g1 s1, showInstance g (some str) = some (g1, some s1) ∧
      s1.m_filesBufIdx = str.m_filesBufIdx ∧ s1.m_filesBuf = str.m_filesBuf := by
  obtain ⟨g1, h1⟩ := showInstance_bound g str hmagic
  exact ⟨g1, _, h1, rfl, rfl⟩

/-- On a bound, initialised segment with a well-formed buffer `openExternalFiles`
returns, and the records that were pending are still pending, followed by the
new ones. -/
theorem openExternalFiles_pending (g : SingleInstanceGuardPrivate) (files : QStringList)
    (str : SharedStruct) (recs : QStringList) (hmagic : str.m_magic = c_magic)
    (hrecs : PendingRecords str recs) :
    ∃ g1 s1 written, openExternalFiles g files (some str) = some (g1, some s1) ∧
      str.m_filesBufIdx ≤ s1.m_filesBufIdx ∧ PendingRecords s1 (recs ++ written) := by
  obtain ⟨p, g1, s1, hopen, _, _, hA, hbound, _⟩ :=
    openExternalFilesWith_quiescent g files str str.m_filesBufIdx.toNat hmagic
      (by have := hrecs.1; omega)
  have hc : str.m_filesBufIdx = ((str.m_filesBufIdx.toNat : Nat) : Int) := by
    have := hrecs.1; omega
  have hle : str.m_filesBufIdx.toNat ≤ 1024 := by
    have := hrecs.2.1; unfold FilesBufCount at this; omega
  refine ⟨g1, s1, (files.take p.idx).filter deliverable, ?_, ?_, ?_⟩
  · simp only [openExternalFiles, hopen]
  · rw [hA.1]; push_cast; omega
  · exact PendingRecords.appended hc hrecs hA (fun r hr => (List.mem_filter.1 hr).2)
      (hbound hle)

/-! ## The cursor stays inside the buffer: claim C12 -/

theorem SameButAsked.keepsBounds {a b : SharedStruct} (h : SameButAsked a b)
    (hb : CursorInBounds a) : CursorInBounds b := by
  unfold CursorInBounds
  rw [h.2.1]
  exact hb

theorem SameButCursor.boundsKept {a b : SharedStruct} (h : SameButCursor a b)
    (hb : CursorInBounds a) : CursorInBounds b := by
  unfold CursorInBounds
  rcases h.2.2.2 with h1 | h1
  · rw [h1]; exact hb
  · rw [h1]; unfold FilesBufCount; omega

/-- Claim C12.  The bound `0 <= m_filesBufIdx <= 1024` holds after a successful
`tryRun`.  On a structure within the bound `appendFileToBuffer` returns for
every path, which in the model means that none of its writes falls outside the
array, keeps the bound and changes no entry at an index of 1024 or more.
Whenever `openExternalFiles`, `showInstance`, `fetchFilesToOpen` or
`fetchAskedToShow` returns, for any guard, input and segment, a structure that
was within the bound still is; and on an initialised structure within the bound
`openExternalFiles` and `showInstance` do return. -/
theorem cursor_bound_invariant :
    (∀ (race : Segment → Segment) (junk : SharedStruct) (g : SingleInstanceGuardPrivate)
        (seg : Segment), (tryRunWith race junk g seg).1 = true →
        ∃ str, (tryRunWith race junk g seg).2.2 = some str ∧ CursorInBounds str) ∧
      (∀ (str : SharedStruct) (p : QString), CursorInBounds str →
        ∃ b s1, appendFileToBuffer str p = some (b, s1) ∧ CursorInBounds s1 ∧
          ∀ j : Nat, 1024 ≤ j → s1.m_filesBuf j = str.m_filesBuf j) ∧
      (∀ (g g1 : SingleInstanceGuardPrivate) (files : QStringList) (seg seg1 : Segment),
        openExternalFiles g files seg = some (g1, seg1) →
        SegmentRel (fun a b => CursorInBounds a → CursorInBounds b) seg seg1) ∧
      (∀ (g g1 : SingleInstanceGuardPrivate) (seg seg1 : Segment),
        showInstance g seg = some (g1, seg1) →
        SegmentRel (fun a b => CursorInBounds a → CursorInBounds b) seg seg1) ∧
      (∀ (g g1 : SingleInstanceGuardPrivate) (seg seg1 : Segment) (files : QStringList),
        fetchFilesToOpen g seg = some (files, g1, seg1) →
        SegmentRel (fun a b => CursorInBounds a → CursorInBounds b) seg seg1) ∧
      (∀ (g g1 : SingleInstanceGuardPrivate) (seg seg1 : Segment) (b : Bool),
        fetchAskedToShow g seg = some (b, g1, seg1) →
        SegmentRel (fun a b => CursorInBounds a → CursorInBounds b) seg seg1) ∧
      (∀ (g : SingleInstanceGuardPrivate) (files : QStringList) (str : SharedStruct),
        str.m_magic = c_magic → CursorInBounds str →
        ∃ g1 s1, openExternalFiles g files (some str) = some (g1, some s1) ∧
          CursorInBounds s1) ∧
      (∀ (g : SingleInstanceGuardPrivate) (str : SharedStruct),
        str.m_magic = c_magic → CursorInBounds str →
        ∃ g1 s1, showInstance g (some str) = some (g1, some s1) ∧ CursorInBounds s1) := by
  refine ⟨?_, ?_, ?_, ?_, ?_, ?_, ?_, ?_⟩
  · intro race junk g seg h
    obtain ⟨_, _, str, hs, _, hidx, _⟩ := tryRunWith_true race junk g seg h
    exact ⟨str, hs, by unfold CursorInBounds FilesBufCount; rw [hidx]; omega⟩
  · intro str p hb
    obtain ⟨b, s1, h⟩ := appendFileToBuffer_returns str p hb.1
    have he := (appendFileToBuffer_extends str s1 p b h).1
    exact ⟨b, s1, h, he.cursorInBounds hb,
      fun j hj => he.2.2.2.2 j (Or.inr (by unfold FilesBufCount; omega))⟩
  · intro g g1 files seg seg1 h
    exact SegmentRel.mono (fun _ _ he => he.cursorInBounds)
      (openExternalFiles_extends _ _ _ _ _ h)
  · intro g g1 seg seg1 h
    exact SegmentRel.mono (fun _ _ he => he.keepsBounds) (showInstance_rel _ _ _ _ h)
  · intro g g1 seg seg1 files h
    exact SegmentRel.mono (fun _ _ he => he.boundsKept) (fetchFilesToOpen_rel _ _ _ _ _ h)
  · intro g g1 seg seg1 b h
    exact SegmentRel.mono (fun _ _ he => he.keepsBounds) (fetchAskedToShow_rel _ _ _ _ _ h)
  · intro g files str hmagic hb
    obtain ⟨p, g1, s1, hopen, _⟩ :=
      openExternalFilesWith_quiescent g files str str.m_filesBufIdx.toNat hmagic
        (by have := hb.1; omega)
    have hopen2 : openExternalFiles g files (some str) = some (g1, some s1) := by
      simp only [openExternalFiles, hopen]
    have hrel := openExternalFiles_extends _ _ _ _ _ hopen2
    exact ⟨g1, s1, hopen2, Extends.cursorInBounds hrel hb⟩
  · intro g str hmagic hb
    obtain ⟨g1, h1⟩ := showInstance_bound g str hmagic
    exact ⟨g1, _, h1, hb⟩

/-- Claim C12 at a concrete input: on the full buffer `appendFileToBuffer`
returns for `"a.txt"` and the cursor stays within the bound. -/
theorem cursor_bound_invariant_witness :
    CursorInBounds fullStruct ∧
      ∃ b s1, appendFileToBuffer fullStruct aTxt = some (b, s1) ∧ CursorInBounds s1 ∧
        ∀ j : Nat, 1024 ≤ j → s1.m_filesBuf j = fullStruct.m_filesBuf j :=
  ⟨⟨by decide, by decide⟩,
    cursor_bound_invariant.2.1 fullStruct aTxt ⟨by decide, by decide⟩⟩

/-! ## The contract of `appendFileToBuffer`: claim C13 -/

/-- Claim C13, amended.  For the empty path `appendFileToBuffer` returns true and
changes nothing, on every structure.  For a non-empty path, when the cursor is
not negative, it returns false exactly when
`FilesBufCount - m_filesBufIdx < length + 1`; when it returns false the shared
state is unchanged; when it returns true the path has been written as one
record, its length and then its code units, at the old cursor, the cursor has
advanced by exactly `length + 1`, and nothing else has changed. -/
theorem appendFileToBuffer_contract (str : SharedStruct) (p : QString) :
    (p = [] → appendFileToBuffer str p = some (true, str)) ∧
      (p ≠ [] → 0 ≤ str.m_filesBufIdx →
        ∃ b s1, appendFileToBuffer str p = some (b, s1) ∧
          (b = false ↔ FilesBufCount - str.m_filesBufIdx < (p.length : Int) + 1) ∧
          (b = false → s1 = str) ∧
          (b = true →
            s1.m_filesBufIdx = str.m_filesBufIdx + ((p.length : Int) + 1) ∧
            cells s1 str.m_filesBufIdx.toNat (p.length + 1) = toUshort p.length :: p ∧
            (toUshort p.length).val = p.length ∧
            s1.m_magic = str.m_magic ∧ s1.m_askedToShow = str.m_askedToShow ∧
            ∀ j : Nat, j < str.m_filesBufIdx.toNat ∨
                str.m_filesBufIdx.toNat + (p.length + 1) ≤ j →
              s1.m_filesBuf j = str.m_filesBuf j)) := by
  constructor
  · intro hnil
    subst hnil
    rfl
  intro hne h0
  by_cases hfull : (p.length : Int) + 1 > FilesBufCount - str.m_filesBufIdx
  · refine ⟨false, str, appendFileToBuffer_refused str p hne hfull, ?_, fun _ => rfl, ?_⟩
    · exact ⟨fun _ => hfull, fun _ => rfl⟩
    · intro h; exact absurd h (by decide)
  · have hfit : str.m_filesBufIdx.toNat + p.length + 1 ≤ 1024 := by
      unfold FilesBufCount at hfull; omega
    obtain ⟨s1, h1, hidx, hmag, hask, hframe, hcells⟩ :=
      appendFileToBuffer_written str p str.m_filesBufIdx.toNat (by omega) hne hfit
    refine ⟨true, s1, h1, ?_, ?_, ?_⟩
    · exact ⟨fun h => absurd h (by decide), fun h => absurd h hfull⟩
    · intro h; exact absurd h (by decide)
    · intro _
      refine ⟨?_, hcells, toUshort_val _ (by omega), hmag, hask, hframe⟩
      rw [hidx]; push_cast; omega

/-- Claim C13 at concrete inputs: `"a.txt"` is appended to the fresh structure
and refused on the full one, and the empty path is accepted on the structure
that holds two files, which stays as it is. -/
theorem appendFileToBuffer_contract_witness :
    (∃ b s1, appendFileToBuffer freshStruct aTxt = some (b, s1) ∧
      (b = false ↔ FilesBufCount - freshStruct.m_filesBufIdx < (aTxt.length : Int) + 1) ∧
      (b = false → s1 = freshStruct) ∧
      (b = true →
        s1.m_filesBufIdx = freshStruct.m_filesBufIdx + ((aTxt.length : Int) + 1) ∧
        cells s1 freshStruct.m_filesBufIdx.toNat (aTxt.length + 1) =
          toUshort aTxt.length :: aTxt ∧
        (toUshort aTxt.length).val = aTxt.length ∧
        s1.m_magic = freshStruct.m_magic ∧ s1.m_askedToShow = freshStruct.m_askedToShow ∧
        ∀ j : Nat, j < freshStruct.m_filesBufIdx.toNat ∨
            freshStruct.m_filesBufIdx.toNat + (aTxt.length + 1) ≤ j →
          s1.m_filesBuf j = freshStruct.m_filesBuf j)) ∧
      appendFileToBuffer fullStruct aTxt = some (false, fullStruct) ∧
      appendFileToBuffer twoFilesStruct [] = some (true, twoFilesStruct) :=
  ⟨(appendFileToBuffer_contract freshStruct aTxt).2 (by decide) (by decide), rfl,
    (appendFileToBuffer_contract twoFilesStruct []).1 rfl⟩

/-- Claim C13 as stated fails for the empty path: on the full buffer the space
left, 0, is less than `length + 1 = 1`, yet `appendFileToBuffer` returns true;
and it returns true without writing a record or moving the cursor. -/
theorem appendFileToBuffer_empty_path_accepted :
    FilesBufCount - fullStruct.m_filesBufIdx < (([] : QString).length : Int) + 1 ∧
      appendFileToBuffer fullStruct [] = some (true, fullStruct) ∧
      appendFileToBuffer freshStruct [] = some (true, freshStruct) ∧
      freshStruct.m_filesBufIdx ≠ freshStruct.m_filesBufIdx + ((([] : QString).length : Int) + 1) :=
  ⟨by decide, rfl, rfl, by decide⟩

/-! ## Order inside one round: claim C14 -/

/-- Claim C14, amended.  One round of `openExternalFiles`, started at index `idx`
on an initialised structure, consumes a run `files[idx .. idx + k)` of
the input and writes, in order, the records of the files of that run that are
neither empty nor longer than 1023 code units, and nothing else.  When it stops
before the end of the list, `idx + k` points at a non-empty path of at most 1023
code units that does not fit in the space left, no later path has been written,
and a further round changes nothing as long as the space is not freed. -/
theorem round_head_of_line (files : QStringList) (idx : Nat) (str : SharedStruct)
    (hmagic : str.m_magic = c_magic) (h0 : 0 ≤ str.m_filesBufIdx) :
    ∃ k s1, openRound files idx str = some (idx + k, s1) ∧ idx + k ≤ max idx files.length ∧
      Appended str s1 str.m_filesBufIdx.toNat
        (((files.drop idx).take k).filter fun p => !p.isEmpty && decide (p.length ≤ 1023)) ∧
      (idx + k < files.length →
        ∃ f, files[idx + k]? = some f ∧ f ≠ [] ∧ f.length ≤ 1023 ∧
          (f.length : Int) + 1 > FilesBufCount - s1.m_filesBufIdx ∧
          openRound files (idx + k) s1 = some (idx + k, s1)) := by
  obtain ⟨k, s1, hround, hk, hA, _, hstuck⟩ :=
    openRound_spec files idx str str.m_filesBufIdx.toNat hmagic (by omega)
  have hsame : ∀ l : QStringList,
      (l.filter fun p => !p.isEmpty && decide (p.length ≤ 1023)) = l.filter deliverable := by
    intro l
    apply List.filter_congr
    intro p _
    have hdec : decide (p.length ≤ 1023) = decide ((p.length : Int) + 1 ≤ FilesBufCount) :=
      decide_eq_decide.2 (by unfold FilesBufCount; omega)
    rw [deliverable, hdec]
  refine ⟨k, s1, hround, hk, by rw [hsame]; exact hA, ?_⟩
  intro hlt
  obtain ⟨f, hf, hd, hfull⟩ := hstuck hlt
  obtain ⟨hne, hlen⟩ := (deliverable_iff f).1 hd
  exact ⟨f, hf, hne, by omega, hfull,
    openRound_stuck files (idx + k) s1 f (hA.2.1.trans hmagic) hf hd hfull⟩

/-- Claim C14 at a concrete input: a round on the fresh structure with two paths
of 600 code units and `"a.txt"`. -/
theorem round_head_of_line_witness :
    ∃ k s1, openRound [longPath 600, longPath 600, aTxt] 0 freshStruct = some (0 + k, s1) ∧
      0 + k ≤ max 0 [longPath 600, longPath 600, aTxt].length ∧
      Appended freshStruct s1 freshStruct.m_filesBufIdx.toNat
        ((([longPath 600, longPath 600, aTxt].drop 0).take k).filter
          fun p => !p.isEmpty && decide (p.length ≤ 1023)) ∧
      (0 + k < [longPath 600, longPath 600, aTxt].length →
        ∃ f, [longPath 600, longPath 600, aTxt][0 + k]? = some f ∧ f ≠ [] ∧ f.length ≤ 1023 ∧
          (f.length : Int) + 1 > FilesBufCount - s1.m_filesBufIdx ∧
          openRound [longPath 600, longPath 600, aTxt] (0 + k) s1 = some (0 + k, s1)) :=
  round_head_of_line [longPath 600, longPath 600, aTxt] 0 freshStruct rfl (by decide)

/-- Claim C14 as stated fails for empty paths.  On the full buffer the empty path
needs `length + 1 = 1` entry and none is left, yet the round does not stop at it:
`idx` advances to 1.  And on the fresh structure the round over `["", "a.txt"]`,
which holds no oversized path, writes the record of `"a.txt"` only. -/
theorem round_empty_path_not_head_of_line :
    FilesBufCount - fullStruct.m_filesBufIdx < (([] : QString).length : Int) + 1 ∧
      openRound [[]] 0 fullStruct = some (1, fullStruct) ∧
      (∃ s1, openRound [[], aTxt] 0 freshStruct = some (2, s1) ∧
        pending s1 = encodeAll [aTxt] ∧ pending s1 ≠ encodeAll [[], aTxt]) := by
  refine ⟨by decide, rfl, ?_⟩
  obtain ⟨s1, h1, hidx, _, _, _, hcells⟩ :=
    appendFileToBuffer_written freshStruct aTxt 0 rfl (by decide) (by decide)
  have hp : pending s1 = encodeAll [aTxt] := by
    rw [pending, hidx]
    simp only [Int.toNat_ofNat]
    rw [Nat.zero_add, hcells]
    rfl
  refine ⟨s1, ?_, hp, by rw [hp]; decide⟩
  have hm : freshStruct.m_magic = c_magic := rfl
  have hsmall : ¬ ((aTxt.length : Int) + 1 > FilesBufCount) := by decide
  have hsmall0 : ¬ ((([] : QString).length : Int) + 1 > FilesBufCount) := by decide
  rw [openRound, if_pos hm]
  simp only [List.drop_zero]
  rw [appendRound, if_neg hsmall0]
  have he : appendFileToBuffer freshStruct [] = some (true, freshStruct) := rfl
  rw [he]
  simp only
  rw [appendRound, if_neg hsmall, h1]
  rfl

/-! ## Writers only append, and the two channels are independent: claims C15 and C19 -/

/-- Claim C15.  Whenever `openExternalFiles` returns, for any guard, input list
and segment, the segment is bound exactly if it was, the cursor has not
decreased and the entries below the old cursor are as they were; whenever
`showInstance` returns, the cursor and the buffer are as they were.  Both
return on a bound segment with an initialised, well-formed buffer, and then
the records pending before the call are still pending, followed by the new
ones.  Of the other calls, `fetchAskedToShow`
and `fetchFilesToOpen` by a guard that is not online leave the cursor alone,
`exit` does not touch the structure, and `fetchFilesToOpen` by an online guard
resets the cursor to 0. -/
theorem writers_only_append :
    (∀ (g g1 : SingleInstanceGuardPrivate) (files : QStringList) (seg seg1 : Segment),
        openExternalFiles g files seg = some (g1, seg1) →
        SegmentRel (fun str s1 => str.m_filesBufIdx ≤ s1.m_filesBufIdx ∧
          ∀ j : Nat, (j : Int) < str.m_filesBufIdx → s1.m_filesBuf j = str.m_filesBuf j)
          seg seg1) ∧
      (∀ (g g1 : SingleInstanceGuardPrivate) (seg seg1 : Segment),
        showInstance g seg = some (g1, seg1) →
        SegmentRel (fun str s1 => s1.m_filesBufIdx = str.m_filesBufIdx ∧
          s1.m_filesBuf = str.m_filesBuf) seg seg1) ∧
      (∀ (g : SingleInstanceGuardPrivate) (files : QStringList) (str : SharedStruct)
        (recs : QStringList), str.m_magic = c_magic → PendingRecords str recs →
        ∃ g1 s1 written, openExternalFiles g files (some str) = some (g1, some s1) ∧
          str.m_filesBufIdx ≤ s1.m_filesBufIdx ∧
          PendingRecords s1 (recs ++ written)) ∧
      (∀ (g : SingleInstanceGuardPrivate) (str : SharedStruct), str.m_magic = c_magic →
        ∃ g1 s1, showInstance g (some str) = some (g1, some s1) ∧
          s1.m_filesBufIdx = str.m_filesBufIdx ∧ s1.m_filesBuf = str.m_filesBuf) ∧
      (∀ (g g1 : SingleInstanceGuardPrivate) (seg seg1 : Segment) (b : Bool),
        fetchAskedToShow g seg = some (b, g1, seg1) →
        SegmentRel (fun str s1 => s1.m_filesBufIdx = str.m_filesBufIdx) seg seg1) ∧
      (∀ (g : SingleInstanceGuardPrivate) (seg : Segment), g.m_online = false →
        fetchFilesToOpen g seg = some ([], g, seg)) ∧
      (∀ (destroyed : Bool) (g g1 : SingleInstanceGuardPrivate) (seg seg1 : Segment),
        exit destroyed g seg = some (g1, seg1) → seg1 = seg ∨ seg1 = none) ∧
      (∀ (g g1 : SingleInstanceGuardPrivate) (str : SharedStruct) (seg1 : Segment)
        (files : QStringList), g.m_online = true →
        fetchFilesToOpen g (some str) = some (files, g1, seg1) →
        ∃ s1, seg1 = some s1 ∧ s1.m_filesBufIdx = 0) := by
  refine ⟨?_, ?_, ?_, ?_, ?_, ?_, ?_, ?_⟩
  · intro g g1 files seg seg1 h
    exact SegmentRel.mono (fun _ _ he => ⟨he.1, fun j hj => he.2.2.2.2 j (Or.inl hj)⟩)
      (openExternalFiles_extends _ _ _ _ _ h)
  · intro g g1 seg seg1 h
    exact SegmentRel.mono (fun _ _ he => ⟨he.2.1, he.2.2⟩) (showInstance_rel _ _ _ _ h)
  · intro g files str recs hmagic hrecs
    exact openExternalFiles_pending g files str recs hmagic hrecs
  · intro g str hmagic
    exact showInstance_returns g str hmagic
  · intro g g1 seg seg1 b h
    exact SegmentRel.mono (fun _ _ he => he.2.1) (fetchAskedToShow_rel _ _ _ _ _ h)
  · intro g seg hoff
    simp [fetchFilesToOpen, hoff]
  · intro destroyed g g1 seg seg1 h
    unfold exit at h
    split at h
    · simp only [Option.some.injEq, Prod.mk.injEq] at h
      exact Or.inl h.2.symm
    · split at h
      · simp only [QSharedMemory.detach, Option.some.injEq, Prod.mk.injEq] at h
        cases destroyed
        · exact Or.inl (by simpa using h.2.symm)
        · exact Or.inr (by simpa using h.2.symm)
      · exact absurd h (by simp)
  · intro g g1 str seg1 files hon h
    have hrel := fetchFilesToOpen_rel _ _ _ _ _ h
    unfold fetchFilesToOpen at h
    simp only [hon, Bool.not_true, Bool.false_eq_true, if_false] at h
    cases hd : g.m_sharedMemory.data (some str) with
    | none => rw [hd] at h; exact absurd h (by simp)
    | some s0 =>
      rw [hd] at h
      simp only at h
      cases hs : fetchFilesSection s0 with
      | none => rw [hs] at h; exact absurd h (by simp)
      | some r =>
        obtain ⟨fl, s1⟩ := r
        rw [hs] at h
        simp only [Option.some.injEq, Prod.mk.injEq] at h
        refine ⟨s1, h.2.2.symm, ?_⟩
        unfold fetchFilesSection at hs
        split at hs
        · split at hs
          · cases hl : fetchLoop s0 s0.m_filesBufIdx.toNat 0 [] with
            | none => rw [hl] at hs; exact absurd hs (by simp)
            | some fl2 =>
              rw [hl] at hs
              simp only [Option.some.injEq, Prod.mk.injEq] at hs
              rw [← hs.2]
          · exact absurd hs (by simp)
        · exact absurd hs (by simp)

/-- Claim C15 at a concrete input: a second hand-off to the structure that holds
`"a.txt"` and `"b.txt"` keeps these two records pending. -/
theorem writers_only_append_witness :
    ∃ g1 s1 written,
      openExternalFiles secondaryGuard [bTxt, aTxt] (some twoFilesStruct) = some (g1, some s1) ∧
      twoFilesStruct.m_filesBufIdx ≤ s1.m_filesBufIdx ∧
      PendingRecords s1 ([aTxt, bTxt] ++ written) :=
  writers_only_append.2.2.1 secondaryGuard [bTxt, aTxt] twoFilesStruct [aTxt, bTxt] rfl
    ⟨by decide, by decide, by decide, by decide⟩

/-- Claim C19.  Whenever `showInstance` or `fetchAskedToShow` returns, the magic
number, the cursor and the buffer of the shared structure are as they were;
whenever `openExternalFiles` or `fetchFilesToOpen` returns, the raise request is
as it was.  So a raise request pending before a file drain is pending after it,
and the records pending before a poll of the raise request are pending after
it. -/
theorem channels_independent :
    (∀ (g g1 : SingleInstanceGuardPrivate) (seg seg1 : Segment),
        showInstance g seg = some (g1, seg1) → SegmentRel SameButAsked seg seg1) ∧
      (∀ (g g1 : SingleInstanceGuardPrivate) (seg seg1 : Segment) (b : Bool),
        fetchAskedToShow g seg = some (b, g1, seg1) → SegmentRel SameButAsked seg seg1) ∧
      (∀ (g g1 : SingleInstanceGuardPrivate) (files : QStringList) (seg seg1 : Segment),
        openExternalFiles g files seg = some (g1, seg1) →
        SegmentRel (fun str s1 => s1.m_askedToShow = str.m_askedToShow) seg seg1) ∧
      (∀ (g g1 : SingleInstanceGuardPrivate) (seg seg1 : Segment) (files : QStringList),
        fetchFilesToOpen g seg = some (files, g1, seg1) →
        SegmentRel (fun str s1 => s1.m_askedToShow = str.m_askedToShow) seg seg1) ∧
      (∀ (g : SingleInstanceGuardPrivate) (str : SharedStruct) (recs : QStringList),
        g.m_online = true → g.m_sharedMemory.isAttached = true → str.m_magic = c_magic →
        PendingRecords str recs → str.m_askedToShow = true →
        ∃ s1, fetchFilesToOpen g (some str) = some (recs, g, some s1) ∧
          fetchAskedToShow g (some s1) = some (true, g, some { s1 with m_askedToShow := false })) ∧
      (∀ (g : SingleInstanceGuardPrivate) (str : SharedStruct) (recs : QStringList),
        g.m_online = true → g.m_sharedMemory.isAttached = true → str.m_magic = c_magic →
        PendingRecords str recs →
        ∃ s1, fetchAskedToShow g (some str) = some (str.m_askedToShow, g, some s1) ∧
          PendingRecords s1 recs ∧
          fetchFilesToOpen g (some s1) = some (recs, g, some { s1 with m_filesBufIdx := 0 })) := by
  refine ⟨fun g g1 seg seg1 h => showInstance_rel _ _ _ _ h,
    fun g g1 seg seg1 b h => fetchAskedToShow_rel _ _ _ _ _ h, ?_, ?_, ?_, ?_⟩
  · intro g g1 files seg seg1 h
    exact SegmentRel.mono (fun _ _ he => he.2.2.2.1) (openExternalFiles_extends _ _ _ _ _ h)
  · intro g g1 seg seg1 files h
    exact SegmentRel.mono (fun _ _ he => he.2.1) (fetchFilesToOpen_rel _ _ _ _ _ h)
  · intro g str recs hon hatt hmagic hrecs hask
    refine ⟨{ str with m_filesBufIdx := 0 },
      fetchFilesToOpen_records g str recs hon hatt hmagic hrecs, ?_⟩
    simp [fetchAskedToShow, hon, data_attached _ _ hatt, hmagic, hask]
  · intro g str recs hon hatt hmagic hrecs
    have hrecs1 : PendingRecords { str with m_askedToShow := false } recs := hrecs
    refine ⟨{ str with m_askedToShow := false }, ?_, hrecs1,
      fetchFilesToOpen_records g _ recs hon hatt hmagic hrecs1⟩
    simp [fetchAskedToShow, hon, data_attached _ _ hatt, hmagic]

/-- Claim C19 at a concrete input: with `"a.txt"`, `"b.txt"` and a raise request
pending, the primary drains the files and still finds the request, and polls
the request and still finds the files. -/
theorem channels_independent_witness :
    (∃ s1, fetchFilesToOpen primaryGuard (some busyStruct) =
          some ([aTxt, bTxt], primaryGuard, some s1) ∧
        fetchAskedToShow primaryGuard (some s1) =
          some (true, primaryGuard, some { s1 with m_askedToShow := false })) ∧
      (∃ s1, fetchAskedToShow primaryGuard (some busyStruct) =
          some (busyStruct.m_askedToShow, primaryGuard, some s1) ∧
        PendingRecords s1 [aTxt, bTxt] ∧
        fetchFilesToOpen primaryGuard (some s1) =
          some ([aTxt, bTxt], primaryGuard, some { s1 with m_filesBufIdx := 0 })) :=
  ⟨channels_independent.2.2.2.2.1 primaryGuard busyStruct [aTxt, bTxt] rfl rfl rfl
      ⟨by decide, by decide, by decide, by decide⟩ rfl,
    channels_independent.2.2.2.2.2 primaryGuard busyStruct [aTxt, bTxt] rfl rfl rfl
      ⟨by decide, by decide, by decide, by decide⟩⟩

/-! ## What is delivered: claim C18 -/

/-- Claim C18.  For every well-formed shared structure of an online primary
whose pending records are those of the list `recs`, so that a fetch would return
`recs`, and every input list `files`: when the files that are neither empty nor
longer than 1023 code units fit in the space left, `openExternalFiles(files)`
followed by the primary's `fetchFilesToOpen` returns `recs` followed by these
files, in input order.  Empty paths are accepted by `appendFileToBuffer` without
a record being written. -/
theorem delivered_exactly (secondary primary : SingleInstanceGuardPrivate)
    (files : QStringList) (str : SharedStruct) (recs : QStringList)
    (hp : OnlinePrimary primary (some str)) (h : PendingRecords str recs)
    (hfit : (encodedSize (files.filter fun p => !p.isEmpty && decide (p.length ≤ 1023)) : Int)
      ≤ FilesBufCount - str.m_filesBufIdx) :
    fetchFilesToOpen primary (some str) =
        some (recs, primary, some { str with m_filesBufIdx := 0 }) ∧
      handoffThenFetch secondary primary files (some str) =
        some (recs ++ files.filter fun p => !p.isEmpty && decide (p.length ≤ 1023)) ∧
      appendFileToBuffer str [] = some (true, str) := by
  obtain ⟨hon, hatt, s, hs, hmagic⟩ := hp
  obtain rfl : str = s := Option.some.inj hs
  have hsame : (files.filter fun p => !p.isEmpty && decide (p.length ≤ 1023)) =
      files.filter deliverable := by
    apply List.filter_congr
    intro p _
    have hdec : decide (p.length ≤ 1023) = decide ((p.length : Int) + 1 ≤ FilesBufCount) :=
      decide_eq_decide.2 (by unfold FilesBufCount; omega)
    rw [deliverable, hdec]
  rw [hsame] at hfit ⊢
  obtain ⟨_, _, _, _, _, _, hres⟩ :=
    handoffThenFetch_fits secondary primary files str recs hon hatt hmagic h hfit
  exact ⟨fetchFilesToOpen_records primary str recs hon hatt hmagic h, hres, rfl⟩

/-- Claim C18 at a concrete input: with `"a.txt"` and `"b.txt"` pending, the
hand-off of an empty path, `"b.txt"`, a path of 1024 code units and `"a.txt"`
is fetched as `"a.txt"`, `"b.txt"`, `"b.txt"`, `"a.txt"`. -/
theorem delivered_exactly_witness :
    handoffThenFetch secondaryGuard primaryGuard [[], bTxt, longPath 1024, aTxt]
        (some twoFilesStruct) = some [aTxt, bTxt, bTxt, aTxt] := by
  have hfilter : ([[], bTxt, longPath 1024, aTxt].filter
      fun p => !p.isEmpty && decide (p.length ≤ 1023)) = [bTxt, aTxt] := by
    have h1 : (!(longPath 1024).isEmpty && decide ((longPath 1024).length ≤ 1023)) = false := by
      rw [longPath_length]; simp
    have h2 : (!bTxt.isEmpty && decide (bTxt.length ≤ 1023)) = true := by decide
    have h3 : (!aTxt.isEmpty && decide (aTxt.length ≤ 1023)) = true := by decide
    have h4 : (!([] : QString).isEmpty && decide (([] : QString).length ≤ 1023)) = false := by
      decide
    simp only [List.filter_cons, h1, h2, h3, h4, List.filter_nil]
    rfl
  have h := (delivered_exactly secondaryGuard primaryGuard [[], bTxt, longPath 1024, aTxt]
    twoFilesStruct [aTxt, bTxt] ⟨rfl, rfl, twoFilesStruct, rfl, rfl⟩
    ⟨by decide, by decide, by decide, by decide⟩ (by rw [hfilter]; decide)).2.1
  rw [hfilter] at h
  exact h

/-! ## Sequences of calls: lemmas for claims C16 and C17 -/

theorem SegmentRel.isSome {R : SharedStruct → SharedStruct → Prop} {seg seg1 : Segment}
    (h : SegmentRel R seg seg1) : seg1.isSome = seg.isSome := by
  cases seg <;> cases seg1 <;> simp_all [SegmentRel]

theorem GuardFits.of_isSome {g : SingleInstanceGuardPrivate} {seg seg1 : Segment}
    (h : GuardFits g seg) (hs : seg1.isSome = seg.isSome) : GuardFits g seg1 :=
  ⟨h.1, fun ha => by rw [hs]; exact h.2 ha⟩

theorem ensureAttached_fits (g g1 : SingleInstanceGuardPrivate) (seg : Segment) (ok : Bool)
    (h : ensureAttached g seg = (ok, g1)) (hg : GuardFits g seg) :
    GuardFits g1 seg ∧ (ok = false → seg = none) := by
  unfold ensureAttached at h
  split at h
  · rename_i hatt
    simp only [Prod.mk.injEq] at h
    obtain ⟨hok, rfl⟩ := h
    exact ⟨hg, fun hf => absurd (hok.trans hf) (by decide)⟩
  · rename_i hatt
    cases seg with
    | none =>
      simp only [QSharedMemory.attach, Option.isSome_none, Bool.false_eq_true, if_false,
        Prod.mk.injEq] at h
      obtain ⟨_, rfl⟩ := h
      exact ⟨hg, fun _ => rfl⟩
    | some str =>
      simp only [QSharedMemory.attach, Option.isSome_some, if_true, Prod.mk.injEq] at h
      obtain ⟨hok, rfl⟩ := h
      exact ⟨⟨fun _ => rfl, fun _ => rfl⟩, fun hf => absurd (hok.trans hf) (by decide)⟩

/-- Whenever `showInstance` returns, the guard still fits the segment. -/
theorem showInstance_fits (g g1 : SingleInstanceGuardPrivate) (seg seg1 : Segment)
    (h : showInstance g seg = some (g1, seg1)) (hg : GuardFits g seg) : GuardFits g1 seg1 := by
  have hs := (showInstance_rel g g1 seg seg1 h).isSome
  unfold showInstance at h
  cases he : ensureAttached g seg with
  | mk ok g2 =>
    have hfit := (ensureAttached_fits g g2 seg ok he hg).1
    rw [he] at h
    cases ok
    · simp only [Option.some.injEq, Prod.mk.injEq] at h
      rw [← h.1]
      exact hfit.of_isSome hs
    · simp only at h
      cases hd : g2.m_sharedMemory.data seg with
      | none => rw [hd] at h; exact absurd h (by simp)
      | some str =>
        rw [hd] at h
        simp only at h
        split at h
        · simp only [Option.some.injEq, Prod.mk.injEq] at h
          rw [← h.1]
          exact hfit.of_isSome hs
        · exact absurd h (by simp)

/-- Whenever `openExternalFiles` returns, the guard still fits the segment. -/
theorem openExternalFiles_fits (g g1 : SingleInstanceGuardPrivate) (files : QStringList)
    (seg seg1 : Segment) (h : openExternalFiles g files seg = some (g1, seg1))
    (hg : GuardFits g seg) : GuardFits g1 seg1 := by
  have hs := (openExternalFiles_extends g g1 files seg seg1 h).isSome
  unfold openExternalFiles at h
  cases ho : openExternalFilesWith quiescent () g files seg with
  | none => rw [ho] at h; exact absurd h (by simp)
  | some r =>
    obtain ⟨p, g2, seg2⟩ := r
    rw [ho] at h
    simp only [Option.some.injEq, Prod.mk.injEq] at h
    obtain ⟨rfl, rfl⟩ := h
    unfold openExternalFilesWith at ho
    split at ho
    · simp only [Option.some.injEq, Prod.mk.injEq] at ho
      rw [← ho.2.1]
      exact hg.of_isSome hs
    · cases he : ensureAttached g seg with
      | mk ok g3 =>
        have hfit := (ensureAttached_fits g g3 seg ok he hg).1
        rw [he] at ho
        cases ok
        · simp only [Option.some.injEq, Prod.mk.injEq] at ho
          rw [← ho.2.1]
          exact hfit.of_isSome hs
        · simp only at ho
          cases hd : g3.m_sharedMemory.data seg with
          | none => rw [hd] at ho; exact absurd ho (by simp)
          | some str =>
            rw [hd] at ho
            simp only at ho
            cases hl : openLoop quiescent files 100 { idx := 0, rounds := 0, env := () } str with
            | none => rw [hl] at ho; exact absurd ho (by simp)
            | some q =>
              obtain ⟨q1, s1⟩ := q
              rw [hl] at ho
              simp only [Option.some.injEq, Prod.mk.injEq] at ho
              rw [← ho.2.1]
              exact hfit.of_isSome hs

/-- On an unbound segment a guard that fits it is neither online nor attached,
and every call returns at once without effect. -/
theorem Instances.callBy_unbound (persist : Bool) (c : GuardCall)
    (g o : SingleInstanceGuardPrivate) (hg : GuardFits g none) :
    Instances.callBy persist c g o none = some (g, none) := by
  have hatt : g.m_sharedMemory.isAttached = false := by
    cases h : g.m_sharedMemory.isAttached with
    | false => rfl
    | true => exact absurd (hg.2 h) (by simp)
  have hoff : g.m_online = false := by
    cases h : g.m_online with
    | false => rfl
    | true => exact absurd ((hg.1 h).symm.trans hatt) (by decide)
  cases c with
  | showInstance =>
    simp [Instances.callBy, showInstance, ensureAttached, hatt, QSharedMemory.attach]
  | openExternalFiles files =>
    cases files with
    | nil => rfl
    | cons f rest =>
      simp [Instances.callBy, openExternalFiles, openExternalFilesWith, ensureAttached, hatt,
        QSharedMemory.attach]
  | fetchFilesToOpen => simp [Instances.callBy, fetchFilesToOpen, hoff]
  | fetchAskedToShow => simp [Instances.callBy, fetchAskedToShow, hoff]
  | exit => simp [Instances.callBy, SingleInstanceGuard.exit, hoff]

theorem WellFormed.sameButAsked {str s1 : SharedStruct} (h : WellFormed str)
    (hs : SameButAsked str s1) : WellFormed s1 := by
  obtain ⟨hmagic, recs, h0, h1, hp, hl⟩ := h
  obtain ⟨e1, e2, e3⟩ := hs
  refine ⟨e1.trans hmagic, recs, by rw [e2]; exact h0, by rw [e2]; exact h1, ?_, hl⟩
  rw [← hp, pending, pending, e2]
  exact cells_congr _ _ _ _ (fun j _ _ => by rw [e3])

/-- On a bound segment with a well-formed structure every call returns, the
guards still fit the segment, and the structure of the segment, if it is still
bound, is well-formed. -/
theorem Instances.callBy_bound (persist : Bool) (c : GuardCall)
    (g o : SingleInstanceGuardPrivate) (str : SharedStruct) (hg : GuardFits g (some str))
    (ho : GuardFits o (some str)) (hwf : WellFormed str) :
    ∃ g1 seg1, Instances.callBy persist c g o (some str) = some (g1, seg1) ∧
      GuardFits g1 seg1 ∧ GuardFits o seg1 ∧ ∀ s1, seg1 = some s1 → WellFormed s1 := by
  obtain ⟨hmagic, recs, hrecs⟩ := hwf
  cases c with
  | showInstance =>
    obtain ⟨g1, s1, h1, hidx, hbuf⟩ := showInstance_returns g str hmagic
    have hrel := showInstance_rel _ _ _ _ h1
    refine ⟨g1, some s1, h1, showInstance_fits _ _ _ _ h1 hg, ho.of_isSome rfl, ?_⟩
    intro s2 hs2
    obtain rfl : s1 = s2 := Option.some.inj hs2
    exact WellFormed.sameButAsked ⟨hmagic, recs, hrecs⟩ hrel
  | openExternalFiles files =>
    obtain ⟨g1, s1, written, h1, _, hrecs1⟩ :=
      openExternalFiles_pending g files str recs hmagic hrecs
    have hrel := openExternalFiles_extends _ _ _ _ _ h1
    refine ⟨g1, some s1, h1, openExternalFiles_fits _ _ _ _ _ h1 hg, ho.of_isSome rfl, ?_⟩
    intro s2 hs2
    obtain rfl : s1 = s2 := Option.some.inj hs2
    exact ⟨hrel.2.2.1.trans hmagic, _, hrecs1⟩
  | fetchFilesToOpen =>
    cases hon : g.m_online with
    | false =>
      refine ⟨g, some str, ?_, hg, ho, ?_⟩
      · simp [Instances.callBy, fetchFilesToOpen, hon]
      · intro s2 hs2
        obtain rfl : str = s2 := Option.some.inj hs2
        exact ⟨hmagic, recs, hrecs⟩
    | true =>
      have h1 := fetchFilesToOpen_records g str recs hon (hg.1 hon) hmagic hrecs
      refine ⟨g, some { str with m_filesBufIdx := 0 }, ?_, hg.of_isSome rfl, ho.of_isSome rfl, ?_⟩
      · simp [Instances.callBy, h1]
      · intro s2 hs2
        obtain rfl := Option.some.inj hs2
        exact ⟨hmagic, [], pendingRecords_of_drained _ rfl⟩
  | fetchAskedToShow =>
    cases hon : g.m_online with
    | false =>
      refine ⟨g, some str, ?_, hg, ho, ?_⟩
      · simp [Instances.callBy, fetchAskedToShow, hon]
      · intro s2 hs2
        obtain rfl : str = s2 := Option.some.inj hs2
        exact ⟨hmagic, recs, hrecs⟩
    | true =>
      refine ⟨g, some { str with m_askedToShow := false }, ?_, hg.of_isSome rfl,
        ho.of_isSome rfl, ?_⟩
      · simp [Instances.callBy, fetchAskedToShow, hon, data_attached _ _ (hg.1 hon), hmagic]
      · intro s2 hs2
        obtain rfl := Option.some.inj hs2
        exact ⟨hmagic, recs, hrecs⟩
  | exit =>
    cases hon : g.m_online with
    | false =>
      refine ⟨g, some str, ?_, hg, ho, ?_⟩
      · simp [Instances.callBy, SingleInstanceGuard.exit, hon]
      · intro s2 hs2
        obtain rfl : str = s2 := Option.some.inj hs2
        exact ⟨hmagic, recs, hrecs⟩
    | true =>
      have h1 := exit_online (!o.m_sharedMemory.isAttached && !persist) g (some str) hon
        (hg.1 hon)
      refine ⟨_, _, h1, ⟨fun h => absurd h (by simp), fun h => absurd h (by simp)⟩, ?_, ?_⟩
      · cases hoa : o.m_sharedMemory.isAttached with
        | false =>
          refine ⟨fun h => absurd ((ho.1 h).symm.trans hoa) (by decide), fun h => ?_⟩
          exact absurd (h.symm.trans hoa) (by decide)
        | true => exact ho.of_isSome (by simp)
      · intro s2 hs2
        split at hs2
        · exact absurd hs2 (by simp)
        · obtain rfl : str = s2 := Option.some.inj hs2
          exact ⟨hmagic, recs, hrecs⟩

/-- Every call returns in a state that satisfies the invariant, and the
invariant holds after it. -/
theorem Instances.call_inv (persist : Bool) (s : Instances) (byOther : Bool) (c : GuardCall)
    (hinv : s.Inv) : ∃ s1, s.call persist byOther c = some s1 ∧ s1.Inv := by
  obtain ⟨primary, other, seg⟩ := s
  obtain ⟨hp, ho, hwf⟩ := hinv
  simp only at hp ho hwf
  cases seg with
  | none =>
    cases byOther
    · exact ⟨⟨primary, other, none⟩,
        by simp [Instances.call, Instances.callBy_unbound persist c primary other hp],
        hp, ho, hwf⟩
    · exact ⟨⟨primary, other, none⟩,
        by simp [Instances.call, Instances.callBy_unbound persist c other primary ho],
        hp, ho, hwf⟩
  | some str =>
    cases byOther
    · obtain ⟨g1, seg1, h1, f1, f2, w1⟩ :=
        Instances.callBy_bound persist c primary other str hp ho (hwf str rfl)
      exact ⟨⟨g1, other, seg1⟩, by simp [Instances.call, h1], f1, f2, w1⟩
    · obtain ⟨g1, seg1, h1, f1, f2, w1⟩ :=
        Instances.callBy_bound persist c other primary str ho hp (hwf str rfl)
      exact ⟨⟨primary, g1, seg1⟩, by simp [Instances.call, h1], f2, f1, w1⟩

/-- Every sequence of calls returns in a state that satisfies the invariant, and
the invariant holds after it. -/
theorem Instances.run_inv (persist : Bool) (calls : List (Bool × GuardCall)) :
    ∀ s : Instances, s.Inv → ∃ s1, Instances.run persist s calls = some s1 ∧ s1.Inv := by
  induction calls with
  | nil => intro s hinv; exact ⟨s, rfl, hinv⟩
  | cons bc rest ih =>
    intro s hinv
    obtain ⟨byOther, c⟩ := bc
    obtain ⟨s1, h1, hinv1⟩ := Instances.call_inv persist s byOther c hinv
    obtain ⟨s2, h2, hinv2⟩ := ih s1 hinv1
    exact ⟨s2, by rw [Instances.run, h1]; exact h2, hinv2⟩

/-- The state right after a successful `tryRun` satisfies the invariant, for any
other guard that is not online. -/
theorem Instances.inv_after_tryRun (race : Segment → Segment) (junk : SharedStruct)
    (g other : SingleInstanceGuardPrivate) (seg : Segment)
    (hrun : (tryRunWith race junk g seg).1 = true) (hother : other.m_online = false) :
    Instances.Inv
      { primary := (tryRunWith race junk g seg).2.1, other := other,
        seg := (tryRunWith race junk g seg).2.2 } := by
  obtain ⟨_, hatt, str, hs, hmagic, hidx, _⟩ := tryRunWith_true race junk g seg hrun
  refine ⟨⟨fun _ => hatt, fun _ => by simp [hs]⟩,
    ⟨fun h => absurd (h.symm.trans hother) (by decide), fun _ => by simp [hs]⟩, ?_⟩
  · intro s2 hs2
    simp only at hs2
    rw [hs] at hs2
    obtain rfl : str = s2 := Option.some.inj hs2
    exact ⟨hmagic, [], pendingRecords_of_drained _ hidx⟩

theorem readCharsTrace_erase (str : SharedStruct) (n : Nat) :
    ∀ (idx : Int) (file : QString) (reads : List Int),
      (readCharsTrace str n idx file reads).map (fun r => (r.1, r.2.1)) =
        readChars str n idx file := by
  induction n with
  | zero => intro idx file reads; rfl
  | succ n ih =>
    intro idx file reads
    rw [readCharsTrace, readChars]
    cases readBuf str idx with
    | none => rfl
    | some c => exact ih _ _ _

/-- Forgetting the bookkeeping of `fetchWalk` gives `fetchLoop`. -/
theorem fetchWalk_erase (str : SharedStruct) (fuel : Nat) :
    ∀ (idx : Int) (files : QStringList) (reads : List Int),
      (fetchWalk str fuel idx files reads).map (fun r => r.1) =
        fetchLoop str fuel idx files := by
  induction fuel with
  | zero =>
    intro idx files reads
    rw [fetchWalk, fetchLoop]
    split <;> rfl
  | succ fuel ih =>
    intro idx files reads
    rw [fetchWalk, fetchLoop]
    split
    · cases readBuf str idx with
      | none => rfl
      | some v =>
        simp only
        split
        · have he := readCharsTrace_erase str v.val (idx + 1) [] (reads ++ [idx])
          cases ht : readCharsTrace str v.val (idx + 1) [] (reads ++ [idx]) with
          | none =>
            rw [ht] at he
            simp only [Option.map_none'] at he
            rw [← he]
            rfl
          | some r =>
            obtain ⟨file, idx2, reads2⟩ := r
            rw [ht] at he
            simp only [Option.map_some'] at he
            rw [← he]
            exact ih _ _ _
        · rfl
    · rfl

theorem readCharsTrace_reads (str : SharedStruct) (n : Nat) :
    ∀ (idx : Int) (file : QString) (reads : List Int) (r : QString × Int × List Int),
      readCharsTrace str n idx file reads = some r →
      r.2.1 = idx + n ∧ ∀ i ∈ r.2.2, i ∈ reads ∨ (idx ≤ i ∧ i < idx + n) := by
  induction n with
  | zero =>
    intro idx file reads r h
    simp only [readCharsTrace, Option.some.injEq] at h
    rw [← h]
    exact ⟨by simp, fun i hi => Or.inl hi⟩
  | succ n ih =>
    intro idx file reads r h
    rw [readCharsTrace] at h
    cases hb : readBuf str idx with
    | none => rw [hb] at h; exact absurd h (by simp)
    | some c =>
      rw [hb] at h
      obtain ⟨h1, h2⟩ := ih _ _ _ _ h
      refine ⟨by rw [h1]; push_cast; omega, ?_⟩
      intro i hi
      rcases h2 i hi with h3 | h3
      · rcases List.mem_append.1 h3 with h4 | h4
        · exact Or.inl h4
        · simp only [List.mem_singleton] at h4
          exact Or.inr ⟨by omega, by push_cast; omega⟩
      · exact Or.inr ⟨by omega, by push_cast; omega⟩

/-- Whenever the decoding walk returns, it has ended exactly at the cursor and
has read only entries below the cursor. -/
theorem fetchWalk_reads (str : SharedStruct) (fuel : Nat) :
    ∀ (idx : Int) (files : QStringList) (reads : List Int)
      (r : QStringList × Int × List Int), idx ≤ str.m_filesBufIdx →
      fetchWalk str fuel idx files reads = some r →
      r.2.1 = str.m_filesBufIdx ∧
        ∀ i ∈ r.2.2, i ∈ reads ∨ (idx ≤ i ∧ i < str.m_filesBufIdx) := by
  induction fuel with
  | zero =>
    intro idx files reads r hle h
    rw [fetchWalk] at h
    split at h
    · exact absurd h (by simp)
    · simp only [Option.some.injEq] at h
      rw [← h]
      exact ⟨by simp only; omega, fun i hi => Or.inl hi⟩
  | succ fuel ih =>
    intro idx files reads r hle h
    rw [fetchWalk] at h
    split at h
    · rename_i hlt
      cases hb : readBuf str idx with
      | none => rw [hb] at h; exact absurd h (by simp)
      | some v =>
        rw [hb] at h
        simp only at h
        split at h
        · rename_i hassert
          cases ht : readCharsTrace str v.val (idx + 1) [] (reads ++ [idx]) with
          | none => rw [ht] at h; exact absurd h (by simp)
          | some q =>
            obtain ⟨file, idx2, reads2⟩ := q
            rw [ht] at h
            simp only at h
            obtain ⟨h1, h2⟩ := readCharsTrace_reads str _ _ _ _ _ ht
            simp only at h1 h2
            obtain ⟨h3, h4⟩ := ih idx2 _ reads2 r (by rw [h1]; omega) h
            refine ⟨h3, ?_⟩
            intro i hi
            rcases h4 i hi with h5 | h5
            · rcases h2 i h5 with h6 | h6
              · rcases List.mem_append.1 h6 with h7 | h7
                · exact Or.inl h7
                · simp only [List.mem_singleton] at h7
                  exact Or.inr ⟨by omega, by omega⟩
              · exact Or.inr ⟨by omega, by omega⟩
            · exact Or.inr ⟨by omega, h5.2⟩
        · exact absurd h (by simp)
    · simp only [Option.some.injEq] at h
      rw [← h]
      exact ⟨by simp only; omega, fun i hi => Or.inl hi⟩

/-- On a well-formed structure the decoding walk of `fetchFilesToOpen` passes
every assertion, returns the pending records, ends exactly at the cursor and
reads only entries below the cursor. -/
theorem fetchWalk_wellFormed (str : SharedStruct) (recs : QStringList)
    (hmagic : str.m_magic = c_magic) (hrecs : PendingRecords str recs) :
    fetchLoop str str.m_filesBufIdx.toNat 0 [] = some recs ∧
      ∃ reads, fetchWalk str str.m_filesBufIdx.toNat 0 [] [] =
          some (recs, str.m_filesBufIdx, reads) ∧
        ∀ i ∈ reads, 0 ≤ i ∧ i < str.m_filesBufIdx := by
  have hsec := fetchFilesSection_records str recs hmagic hrecs
  have hloop : fetchLoop str str.m_filesBufIdx.toNat 0 [] = some recs := by
    unfold fetchFilesSection at hsec
    rw [if_pos hmagic, if_pos hrecs.2.1] at hsec
    cases hl : fetchLoop str str.m_filesBufIdx.toNat 0 [] with
    | none => rw [hl] at hsec; exact absurd hsec (by simp)
    | some fl =>
      rw [hl] at hsec
      simp only [Option.some.injEq, Prod.mk.injEq] at hsec
      rw [hsec.1]
  refine ⟨hloop, ?_⟩
  have he := fetchWalk_erase str str.m_filesBufIdx.toNat 0 [] []
  rw [hloop] at he
  cases hw : fetchWalk str str.m_filesBufIdx.toNat 0 [] [] with
  | none => rw [hw] at he; exact absurd he (by simp)
  | some r =>
    obtain ⟨fl, idx, reads⟩ := r
    rw [hw] at he
    simp only [Option.map_some', Option.some.injEq] at he
    obtain ⟨h1, h2⟩ := fetchWalk_reads str _ _ _ _ _ hrecs.1 hw
    simp only at h1 h2
    refine ⟨reads, by rw [he, h1], ?_⟩
    intro i hi
    rcases h2 i hi with h3 | h3
    · exact absurd h3 (List.not_mem_nil _)
    · exact h3

/-! ## The magic number and the shape of the buffer: claims C16 and C17 -/

/-- Claim C16.  Start right after a successful `tryRun` (it has written the magic
number), with any other guard that is not online, and let the two guards make
any sequence of `showInstance`, `openExternalFiles`, `fetchFilesToOpen`,
`fetchAskedToShow` and `exit` calls.  Every call returns, so no assertion on
the magic number fails, and while the segment is bound its structure has
`m_magic = 19910925`.  No call writes the magic number: whenever one of them
returns, `m_magic` is as it was. -/
theorem magic_invariant (race : Segment → Segment) (junk : SharedStruct)
    (g other : SingleInstanceGuardPrivate) (seg : Segment) (persist : Bool)
    (calls : List (Bool × GuardCall)) (hrun : (tryRunWith race junk g seg).1 = true)
    (hother : other.m_online = false) :
    (∃ s, Instances.run persist
          { primary := (tryRunWith race junk g seg).2.1, other := other,
            seg := (tryRunWith race junk g seg).2.2 } calls = some s ∧
        ∀ str, s.seg = some str → str.m_magic = 19910925) ∧
      (∀ (c : GuardCall) (g1 o g2 : SingleInstanceGuardPrivate) (seg1 seg2 : Segment),
        Instances.callBy persist c g1 o seg1 = some (g2, seg2) →
        seg2 = none ∨ SegmentRel (fun str s1 => s1.m_magic = str.m_magic) seg1 seg2) := by
  constructor
  · obtain ⟨s, hs, hinv⟩ := Instances.run_inv persist calls _
      (Instances.inv_after_tryRun race junk g other seg hrun hother)
    exact ⟨s, hs, fun str hstr => (hinv.2.2 str hstr).1⟩
  · intro c g1 o g2 seg1 seg2 h
    cases c with
    | showInstance =>
      exact Or.inr (SegmentRel.mono (fun _ _ he => he.1) (showInstance_rel _ _ _ _ h))
    | openExternalFiles files =>
      exact Or.inr (SegmentRel.mono (fun _ _ he => he.2.2.1)
        (openExternalFiles_extends _ _ _ _ _ h))
    | fetchFilesToOpen =>
      simp only [Instances.callBy] at h
      cases hf : fetchFilesToOpen g1 seg1 with
      | none => rw [hf] at h; exact absurd h (by simp)
      | some r =>
        obtain ⟨fl, g3, seg3⟩ := r
        rw [hf] at h
        simp only [Option.some.injEq, Prod.mk.injEq] at h
        rw [← h.2]
        exact Or.inr (SegmentRel.mono (fun _ _ he => he.1) (fetchFilesToOpen_rel _ _ _ _ _ hf))
    | fetchAskedToShow =>
      simp only [Instances.callBy] at h
      cases hf : fetchAskedToShow g1 seg1 with
      | none => rw [hf] at h; exact absurd h (by simp)
      | some r =>
        obtain ⟨b, g3, seg3⟩ := r
        rw [hf] at h
        simp only [Option.some.injEq, Prod.mk.injEq] at h
        rw [← h.2]
        exact Or.inr (SegmentRel.mono (fun _ _ he => he.1) (fetchAskedToShow_rel _ _ _ _ _ hf))
    | exit =>
      simp only [Instances.callBy] at h
      unfold SingleInstanceGuard.exit at h
      split at h
      · simp only [Option.some.injEq, Prod.mk.injEq] at h
        rw [← h.2]
        exact Or.inr (by cases seg1 <;> simp [SegmentRel])
      · split at h
        · simp only [QSharedMemory.detach, Option.some.injEq, Prod.mk.injEq] at h
          rw [← h.2]
          split
          · exact Or.inl rfl
          · exact Or.inr (by cases seg1 <;> simp [SegmentRel])
        · exact absurd h (by simp)

/-- Claim C16 at a concrete input: a new guard becomes the primary on an unbound
name and the sample calls follow. -/
theorem magic_invariant_witness :
    ∃ s, Instances.run false
        { primary := (tryRunWith id zeroStruct SingleInstanceGuardPrivate.new none).2.1,
          other := SingleInstanceGuardPrivate.new,
          seg := (tryRunWith id zeroStruct SingleInstanceGuardPrivate.new none).2.2 }
        sampleCalls = some s ∧
      ∀ str, s.seg = some str → str.m_magic = 19910925 :=
  (magic_invariant id zeroStruct SingleInstanceGuardPrivate.new SingleInstanceGuardPrivate.new
    none false sampleCalls rfl rfl).1

/-- Claim C17.  In every state reached from a successful `tryRun` by any
sequence of guard calls, while the segment is bound the written part
`m_filesBuf[0 .. m_filesBufIdx)` of its structure is a back-to-back sequence of
records, each a length between 1 and 1023 followed by that many code units,
that ends exactly at the cursor.  Therefore the decoding walk of
`fetchFilesToOpen` returns these records, so its assertion never fails, it
never reads an entry at or beyond the cursor, and it ends with `idx` equal to
the cursor. -/
theorem buffer_well_formed (race : Segment → Segment) (junk : SharedStruct)
    (g other : SingleInstanceGuardPrivate) (seg : Segment) (persist : Bool)
    (calls : List (Bool × GuardCall)) (hrun : (tryRunWith race junk g seg).1 = true)
    (hother : other.m_online = false) :
    ∃ s, Instances.run persist
        { primary := (tryRunWith race junk g seg).2.1, other := other,
          seg := (tryRunWith race junk g seg).2.2 } calls = some s ∧
      ∀ str, s.seg = some str →
        ∃ recs, PendingRecords str recs ∧
          fetchLoop str str.m_filesBufIdx.toNat 0 [] = some recs ∧
          ∃ reads, fetchWalk str str.m_filesBufIdx.toNat 0 [] [] =
              some (recs, str.m_filesBufIdx, reads) ∧
            ∀ i ∈ reads, 0 ≤ i ∧ i < str.m_filesBufIdx := by
  obtain ⟨s, hs, hinv⟩ := Instances.run_inv persist calls _
    (Instances.inv_after_tryRun race junk g other seg hrun hother)
  refine ⟨s, hs, ?_⟩
  intro str hstr
  obtain ⟨hmagic, recs, hrecs⟩ := hinv.2.2 str hstr
  exact ⟨recs, hrecs, fetchWalk_wellFormed str recs hmagic hrecs⟩

/-- Claim C17 at a concrete input: a new guard becomes the primary on an unbound
name and the sample calls follow. -/
theorem buffer_well_formed_witness :
    ∃ s, Instances.run false
        { primary := (tryRunWith id zeroStruct SingleInstanceGuardPrivate.new none).2.1,
          other := SingleInstanceGuardPrivate.new,
          seg := (tryRunWith id zeroStruct SingleInstanceGuardPrivate.new none).2.2 }
        sampleCalls = some s ∧
      ∀ str, s.seg = some str →
        ∃ recs, PendingRecords str recs ∧
          fetchLoop str str.m_filesBufIdx.toNat 0 [] = some recs ∧
          ∃ reads, fetchWalk str str.m_filesBufIdx.toNat 0 [] [] =
              some (recs, str.m_filesBufIdx, reads) ∧
            ∀ i ∈ reads, 0 ≤ i ∧ i < str.m_filesBufIdx :=
  buffer_well_formed id zeroStruct SingleInstanceGuardPrivate.new SingleInstanceGuardPrivate.new
    none false sampleCalls rfl rfl

/-! ## A hand-off that starts on a buffer that is not empty: the limit of claim C5 -/

end SingleInstanceGuard
